import Mathlib

/-!
Verification development for the poco_project assembly simulator
(src/modules/assembler.py, src/modules/processor.py).

Bit strings are modelled as lists of booleans, most significant bit first,
mirroring the 0/1 character strings and bitarray values of the source.
Helper modules absent from src (modules/functions.py, modules/memory.py,
modules/register.py, modules/shell.py, and the ISA descriptor tables
modules/instructions.json and modules/registers.json) are modelled from
the specification; each such definition carries a doc comment saying so.
-/

/-- A bit string: list of booleans, MSB at the head, mirroring bitarray/`'0'`-`'1'` strings. -/
abbrev Bits := List Bool

/-- Value of a bit string read as an unsigned binary numeral, as `int(s, 2)` does. -/
def bitsToNat : Bits → Nat
  | [] => 0
  | b :: rest => (if b then 1 else 0) * 2 ^ rest.length + bitsToNat rest

/-- Fuel-driven core of `bin(n)[2:]`: binary digits of `n`, no leading zeros, empty for 0. -/
def natBinCore : Nat → Nat → Bits
  | 0, _ => []
  | fuel + 1, n => if n = 0 then [] else natBinCore fuel (n / 2) ++ [decide (n % 2 = 1)]

/-- Python `bin(n)[2:]` for a nonnegative `n`: minimal binary digits, `"0"` for zero. -/
def natBin (n : Nat) : Bits := if n = 0 then [false] else natBinCore n n

/-- Python `str.rjust(w, fill)`: left-pad to width `w` with `fill`, never truncate. -/
def rjust (w : Nat) (fill : Bool) (b : Bits) : Bits := List.replicate (w - b.length) fill ++ b

/-- The 16-bit register image of a value below `2 ^ 16`: `bin(n)[2:].rjust(16, '0')`. -/
def toBits16 (n : Nat) : Bits := rjust 16 false (natBin n)

/-- Modelled from the spec: `twos_complement` from `modules/functions.py` (absent from
src).  Spec §3 and §8.7 describe the two's-complement encode/decode helper: encoding
maps a signed value of `(-2^(N-1), 2^(N-1))` to its `N`-bit unsigned image, decoding
maps an unsigned `N`-bit value at or above `2^(N-1)` to `value - 2^N`.  A single
self-inverse function serves both directions, exactly as the call sites in
`assembler.py` (encoding) and `processor.py` (decoding) require. -/
def twos_complement (v : Int) (bits : Nat) : Int :=
  if v < 0 then v + 2 ^ bits
  else if (2 : Int) ^ (bits - 1) ≤ v then v - 2 ^ bits
  else v

/-- Python list slicing index normalisation: negative indices count from the end
and everything is clamped to `[0, len]`. -/
def pyIndex (len : Nat) (i : Int) : Nat :=
  if i < 0 then ((len : Int) + i).toNat else min i.toNat len

/-- Python `l[a:b]` for integer indices. -/
def pySlice (l : List Nat) (a b : Int) : List Nat :=
  let a' := pyIndex l.length a
  let b' := pyIndex l.length b
  (l.drop a').take (b' - a')

/-- Python strings of the assembler are modelled as lists of characters. -/
abbrev Str := List Char

/-- Python `text.split(sep)` for a one-character separator: splitting `""` yields `[""]`,
and adjacent separators yield empty fields. -/
def split_char (sep : Char) : Str → List Str
  | [] => [[]]
  | c :: rest =>
      if c = sep then [] :: split_char sep rest
      else
        match split_char sep rest with
        | [] => [[c]]
        | h :: t => (c :: h) :: t

/-- Digits of a decimal numeral; `Option.none` when empty or containing a non-digit. -/
def digits_value : Str → Option Nat
  | [] => Option.none
  | [c] => if c.isDigit then some (c.toNat - '0'.toNat) else Option.none
  | c :: rest => do
      let hd ← if c.isDigit then some (c.toNat - '0'.toNat) else Option.none
      let tl ← digits_value rest
      some (hd * 10 ^ rest.length + tl)

/-- Modelled from Python `int(s)` on the operand texts the assembler meets: an optional
sign followed by decimal digits (Python also strips whitespace and allows underscores;
those inputs do not occur in the fragments the claims quantify over). -/
def py_int : Str → Option Int
  | '-' :: rest => (digits_value rest).map (fun n => -(n : Int))
  | '+' :: rest => (digits_value rest).map (fun n => (n : Int))
  | s => (digits_value s).map (fun n => (n : Int))

/-- The four ISA families of the simulator. -/
inductive ISA
  | stack
  | accumulator
  | risc
  | cisc
  deriving DecidableEq, Repr

/-- Per-ISA `(instruction bits, opcode bits, byte bits)`, the `instruction_sizes`
table of `CPU.__init__`. -/
def instruction_size : ISA → Nat × Nat × Nat
  | .stack => (6, 6, 6)
  | .accumulator => (8, 8, 8)
  | .risc => (16, 6, 8)
  | .cisc => (8, 8, 8)

/-- Instruction width in bits for an ISA. -/
def instrBits (i : ISA) : Nat := (instruction_size i).1

/-- Opcode width in bits for an ISA. -/
def opcodeBits (i : ISA) : Nat := (instruction_size i).2.1

/-- Byte width in bits for an ISA. -/
def byteBits (i : ISA) : Nat := (instruction_size i).2.2

/-- The closed vocabulary of words appearing in the ISA descriptor tables, both as
operand aliases and as result categories (the source keeps them as strings and some
lists mix the two roles).  `imm Option.none` is the bare word `"imm"`, `imm (some n)`
is `"immN"`; `inp` stands for the word `"in"`; `word s` covers any other string. -/
inductive Tok
  | reg
  | memreg
  | memregoff
  | regoff
  | imm (width : Option Nat)
  | tos
  | tos2
  | tospop
  | memtos
  | memir
  | memimm
  | fr
  | ir
  | acc
  | one
  | simdreg
  | firstop
  | flags
  | out
  | inp
  | stackpush
  | stackpop
  | stackpopf
  | call
  | ret
  | jmp
  | enter
  | leave
  | swap
  | simd
  | simdload
  | simdstore
  | cmp
  | word (s : String)
  deriving DecidableEq, Repr

/-- Whether a table word starts with `"imm"` (Python `operand.startswith("imm")`). -/
def Tok.isImm : Tok → Bool
  | .imm _ => true
  | _ => false

/-- Whether a table word starts with `"tos"` (Python `alias.startswith("tos")`). -/
def Tok.isTos : Tok → Bool
  | .tos => true
  | .tos2 => true
  | .tospop => true
  | _ => false

/-- The register name Python obtains as `dest_type.upper()` from a table word, used by
the accumulator `stackpop` destination; words that are not register-like names give
`Option.none` (the source would fail the register dictionary lookup). -/
def Tok.upperName : Tok → Option String
  | .fr => some "FR"
  | .ir => some "IR"
  | .acc => some "ACC"
  | .word s => some s.toUpper
  | _ => Option.none

/-- An entry of `instructions.json` for one opcode: `[mnemonic, details…]`.
Stack/accumulator entries are `[mnemonic, word-list]`; RISC/CISC entries are
`[mnemonic, result-category, alias-list]`. -/
inductive InstrEntry
  | sa (mnemonic : String) (lst : List Tok)
  | rc (mnemonic : String) (resType : Tok) (aliases : List Tok)

/-- The mnemonic `details[0]` of a table entry. -/
def InstrEntry.mnem : InstrEntry → String
  | .sa m _ => m
  | .rc m _ _ => m

/-- Operand aliases of the current entry, as `CPU.execute` reads them:
`details[-1]` for RISC/CISC, `details[1][1:]` for stack, `details[1]` for
accumulator. -/
def operand_aliases_of (isa : ISA) : InstrEntry → Option (List Tok)
  | .rc _ _ al =>
      match isa with
      | .risc => some al
      | .cisc => some al
      | _ => Option.none
  | .sa _ lst =>
      match isa with
      | .risc => some lst
      | .cisc => some lst
      | .stack => some (lst.drop 1)
      | .accumulator => some lst

/-- Result category of the current entry, as `CPU.execute` reads it:
`details[1]` for RISC/CISC, `details[1][0]` for stack and accumulator.
A malformed entry shape for the ISA gives `Option.none`. -/
def res_type_of (isa : ISA) : InstrEntry → Option Tok
  | .rc _ rt _ =>
      match isa with
      | .risc => some rt
      | .cisc => some rt
      | _ => Option.none
  | .sa _ lst =>
      match isa with
      | .stack => lst.head?
      | .accumulator => lst.head?
      | _ => Option.none

/-- Modelled from the spec: `Memory` from `modules/memory.py` (absent from src).
Spec §3: a bit buffer of `memory_size · 8` bits; `read(start_bit, end_bit)` returns
the slice, `write(start_bit, bits)` overwrites in place, and accesses beyond the
memory extent fail (`MemoryOutOfRange`, spec §7). -/
structure Mem where
  sizeBytes : Nat
  bit : Nat → Bool

/-- Modelled from the spec: `Memory.read_data` returns the bit slice `[a, b)`. -/
def read_data (m : Mem) (a b : Nat) : Option Bits :=
  if a ≤ b ∧ b ≤ m.sizeBytes * 8 then
    some ((List.range (b - a)).map (fun i => m.bit (a + i)))
  else Option.none

/-- Modelled from the spec: `Memory.write_data` overwrites `value.length` bits
starting at bit `a`. -/
def write_data (m : Mem) (a : Nat) (value : Bits) : Option Mem :=
  if a + value.length ≤ m.sizeBytes * 8 then
    some { m with bit := fun i => if a ≤ i ∧ i < a + value.length then value.getD (i - a) false else m.bit i }
  else Option.none

/-- Memory read at a possibly negative bit address (negative is beyond the extent). -/
def read_dataI (m : Mem) (a b : Int) : Option Bits :=
  if 0 ≤ a ∧ 0 ≤ b then read_data m a.toNat b.toNat else Option.none

/-- Memory write at a possibly negative bit address (negative is beyond the extent). -/
def write_dataI (m : Mem) (a : Int) (value : Bits) : Option Mem :=
  if 0 ≤ a then write_data m a.toNat value else Option.none

/-- Modelled from the spec: the `Shell` device from `modules/shell.py` (absent from
src).  Spec §3/§4.5: it holds a running output buffer and, in MMIO mode, a memory
window `[startPoint, endPoint)` whose contents are copied into `devState` after each
executed cycle. -/
structure Shell where
  ioType : String
  outputBuffer : List Nat
  startPoint : Nat
  endPoint : Nat
  devState : Bits

/-- Modelled from the spec: `Shell.out_shell` appends the character whose code is the
low byte of the 16-bit value. -/
def out_shell (s : Shell) (value : Bits) : Shell :=
  { s with outputBuffer := s.outputBuffer ++ [bitsToNat value % 256] }

/-- Where `CPU.execute` saves a result: a byte address in data memory (the source's
`memory_write_access` together with an integer destination), a register object, a
device, or Python `None`. -/
inductive Dest
  | mem (addr : Int)
  | reg (name : String)
  | port (num : Nat)
  | nodest

/-- The processor state: `CPU.__dict__` after construction.  Registers are modelled
from the spec (`modules/register.py` is absent from src) as named 16-bit cells: a
name-indexed value map plus the list of names the ISA's register table declares;
reads of undeclared names fail as the source's dictionary lookups would.  The ISA
descriptor tables (`instructions.json`, `registers.json`) and the ALU table
(`functions_dictionary` from the absent `modules/functions.py`) are data fields,
as §6 of the spec requires (`the core must accept these as data`). -/
structure CPU where
  isa : ISA
  architecture : String
  ioArch : String
  instructionsDict : List (Bits × InstrEntry)
  registerCodes : List (Bits × String)
  aluTable : List (String × (List Bits → Nat → Bits × Nat))
  regNames : List String
  regs : String → Nat
  dataMemory : Mem
  programMemory : Mem
  ports : List (Nat × Shell)
  programPointer : Int
  instrSizeList : List Nat
  instruction : Bits
  opcode : Bits
  additionalJump : Nat
  longRegisters : List Bits
  longRegisterResult : Bits
  longImmediates : List Bits
  longImmediateResult : Bits
  firstInstruction : Bool
  isInputActive : Bool
  inputSaved : Option (Bool × Dest × Bool)
  tosStart : Nat
  stackStart : Nat

/-- Read `int(self.registers[n]._state.to01(), 2)`; fails when the ISA declares no
register named `n`. -/
def getReg (c : CPU) (n : String) : Option Nat :=
  if n ∈ c.regNames then some (c.regs n) else Option.none

/-- The 16-bit `_state` image of register `n`. -/
def regState (c : CPU) (n : String) : Option Bits :=
  (getReg c n).map toBits16

/-- Raw update of a register cell (the source's direct `_state` assignment). -/
def setRegUnchecked (c : CPU) (n : String) (v : Nat) : CPU :=
  { c with regs := fun m => if m = n then v else c.regs m }

/-- Modelled from the spec: `Register.write_data` — a value wider than 16 bits fails,
narrower values are left-padded with zeros (spec §3).  Fails when the register does
not exist. -/
def writeRegData (c : CPU) (n : String) (b : Bits) : Option CPU :=
  if n ∈ c.regNames then
    if b.length ≤ 16 then some (setRegUnchecked c n (bitsToNat b)) else Option.none
  else Option.none

/-- Replace the data memory; in the unified (`neumann`/`harvardm`) architectures the
program memory is the same object, so it changes too. -/
def setDataMem (c : CPU) (m : Mem) : CPU :=
  if c.architecture = "harvard" then { c with dataMemory := m }
  else { c with dataMemory := m, programMemory := m }

/-- `CPU.__push_stack`: write 16 bits at `SP·8 − 16`, then move `SP` down by 2 via a
direct `_state` assignment. -/
def push_stack (c : CPU) (value : Bits) : Option CPU := do
  let sp ← getReg c "SP"
  let dm ← write_dataI c.dataMemory ((sp * 8 : Nat) - (16 : Int)) value
  some (setRegUnchecked (setDataMem c dm) "SP" (sp - 2))

/-- `CPU.__pop_stack`: move `SP` up by 2, then return the 16 bits at the old `SP·8`. -/
def pop_stack (c : CPU) : Option (CPU × Bits) := do
  let sp ← getReg c "SP"
  let c1 ← writeRegData c "SP" (natBin (sp + 2))
  let v ← read_data c1.dataMemory (sp * 8) (sp * 8 + 16)
  some (c1, v)

/-- `CPU.__pop_tos`: read the 16 bits below `TOS` (or one word lower for `second`,
when `TOS·8` exceeds `tos_start`), and move `TOS` down by 2 when `pop` is set. -/
def pop_tos (c : CPU) (second : Bool) (pop : Bool) : Option (CPU × Bits) := do
  let tos ← getReg c "TOS"
  let tosVal := tos * 8
  let startRead := if second ∧ tosVal > c.tosStart then tosVal - 16 else tosVal
  let v ← read_dataI c.dataMemory ((startRead : Int) - 16) (startRead : Int)
  if pop then
    if 2 ≤ tos then
      let c1 ← writeRegData c "TOS" (natBin (tos - 2))
      some (c1, v)
    else Option.none
  else some (c, v)

/-- `Register.write_data` invoked through an already-held register object (the values
of `register_codes`, a saved result destination): no name lookup can fail, only the
16-bit width check applies. -/
def writeRegObj (c : CPU) (n : String) (b : Bits) : Option CPU :=
  if b.length ≤ 16 then some (setRegUnchecked c n (bitsToNat b)) else Option.none

/-- The CISC style table of `CPU.__read_instruction`:
`opcode[0:3] → (register packs, two-byte immediates)`; style `111` is absent and
fetching it fails as the source's dictionary lookup would. -/
def cisc_styles : List (Bits × (Nat × Nat)) :=
  [([false, false, false], (1, 0)), ([false, false, true], (0, 0)),
   ([false, true, false], (0, 1)), ([false, true, true], (2, 0)),
   ([true, false, false], (1, 1)), ([true, false, true], (2, 1)),
   ([true, true, false], (1, 2))]

/-- The immediate-reading loop of `CPU.__read_instruction`: read `count` two-byte
words in order, each sign-extended to 16 bits by left-padding with its first bit. -/
def read_imms (pm : Mem) (bb : Nat) : Nat → Nat → Option (List Bits × Nat)
  | 0, srl => some ([], srl)
  | k + 1, srl => do
      let t ← read_data pm srl (srl + 2 * bb)
      let sx := rjust 16 (t.headD false) t
      let (rest, srl') ← read_imms pm bb k (srl + 2 * bb)
      some (sx :: rest, srl')

/-- The per-ISA long-operand counters of `CPU.__read_instruction`:
`(register_reader, constant_reader)` from the opcode. -/
def fetch_counters (isa : ISA) (opc : Bits) : Option (Nat × Nat) :=
  match isa with
  | .stack => some (0, if opc.headD false then 1 else 0)
  | .accumulator => some (0, if opc.headD false then 1 else 0)
  | .cisc => cisc_styles.lookup (opc.take 3)
  | .risc => some (0, 0)

/-- The long-register-pack read of `CPU.__read_instruction`: when the style calls for
register packs, read one extra byte, split it into 3-bit codes (reversed for popping),
and count the byte in `additional_jump`. -/
def fetch_registers (c0 : CPU) (registerReader srl1 : Nat) : Option (CPU × Nat) :=
  if 0 < registerReader then do
    let bits ← read_data c0.programMemory srl1 (srl1 + byteBits c0.isa)
    let lr := if registerReader = 2 then [(bits.drop 3).take 3, bits.take 3] else [bits.take 3]
    let lrr ← lr.getLast?
    some ({ c0 with longRegisters := lr, longRegisterResult := lrr,
                    additionalJump := c0.additionalJump + 1 }, srl1 + byteBits c0.isa)
  else some (c0, srl1)

/-- The long-immediate bookkeeping at the end of `CPU.__read_instruction`: record the
first immediate as the result pointer, count two bytes per immediate in
`additional_jump`, and store the list reversed for popping. -/
def attach_imms (c1 : CPU) (constantReader : Nat) (imms : List Bits) : CPU :=
  match imms.head? with
  | some h => { c1 with longImmediateResult := h,
                        additionalJump := c1.additionalJump + 2 * constantReader,
                        longImmediates := imms.reverse }
  | Option.none => { c1 with additionalJump := c1.additionalJump + 2 * constantReader,
                             longImmediates := imms.reverse }

/-- `CPU.__read_instruction`: fetch `instruction-bits` at `IP · byte-bits`, extract
the opcode, then read the long register pack and long immediates the ISA and opcode
call for, counting the extra bytes in `additional_jump`. -/
def read_instruction (c : CPU) : Option CPU := do
  let ip ← getReg c "IP"
  let srl0 := ip * byteBits c.isa
  let instr ← read_data c.programMemory srl0 (srl0 + instrBits c.isa)
  let srl1 := srl0 + instrBits c.isa
  let opc := instr.take (opcodeBits c.isa)
  let counters ← fetch_counters c.isa opc
  let c0 := { c with instruction := instr, opcode := opc, additionalJump := 0 }
  let step1 ← fetch_registers c0 counters.1 srl1
  let imms ← (read_imms step1.1.programMemory (byteBits step1.1.isa) counters.2 step1.2).map
    Prod.fst
  some (attach_imms step1.1 counters.2 imms)

/-- `CPU.__update_devices`: each MMIO device copies its memory window into its state. -/
def update_devices (c : CPU) : Option CPU := do
  let ports' ← c.ports.mapM (fun p =>
    if p.2.ioType = "mmio" then
      (read_data c.dataMemory (p.2.startPoint * 8) (p.2.endPoint * 8)).map
        (fun d => (p.1, { p.2 with devState := d }))
    else some p)
  some { c with ports := ports' }

/-- `CPU.__determine_start_point`: 5 for the RISC low/high byte moves, 6 for other
RISC opcodes, Python `None` for the other ISAs. -/
def determine_start_point (c : CPU) : Option Nat :=
  match c.isa with
  | .risc =>
      let lowHigh := (c.instructionsDict.filter
        (fun p => p.2.mnem == "mov_low" || p.2.mnem == "mov_high")).map Prod.fst
      if c.opcode ∈ lowHigh then some 5 else some 6
  | _ => Option.none

/-- One iteration of the operand loop of `CPU.__add_operands` for one alias: returns
the updated state, the updated in-instruction read position, and the collected value
(`Option.none` when the alias matches no case and is skipped). -/
def add_operand_one (c : CPU) (sp : Option Nat) : Tok → Option (CPU × Option Nat × Option Bits)
  | .reg =>
      match c.isa with
      | .cisc => do
          let code ← c.longRegisters.getLast?
          let c1 := { c with longRegisters := c.longRegisters.dropLast }
          let name ← c1.registerCodes.lookup code
          some (c1, sp, some (toBits16 (c1.regs name)))
      | _ => do
          let s ← sp
          let code := (c.instruction.drop s).take 3
          let name ← c.registerCodes.lookup code
          some (c, some (s + 3), some (toBits16 (c.regs name)))
  | .regoff => do
      let code ← c.longRegisters.getLast?
      let c1 := { c with longRegisters := c.longRegisters.dropLast }
      let name ← c1.registerCodes.lookup code
      let registerValue := twos_complement (c1.regs name) 16
      let immB ← c1.longImmediates.getLast?
      let c2 := { c1 with longImmediates := c1.longImmediates.dropLast }
      let offsetNumber := twos_complement (bitsToNat immB) 16
      let sum := registerValue + offsetNumber
      some (c2, sp, some (rjust 16 (decide (sum < 0)) (natBin sum.natAbs)))
  | .memreg => do
      let step ←
        match c.isa with
        | .cisc => do
            let code ← c.longRegisters.getLast?
            some ({ c with longRegisters := c.longRegisters.dropLast }, sp, code)
        | _ => do
            let s ← sp
            some (c, some (s + 3), (c.instruction.drop s).take 3)
      let name ← step.1.registerCodes.lookup step.2.2
      let tmp := step.1.regs name * 8
      let v ← read_data step.1.dataMemory tmp (tmp + 16)
      some (step.1, step.2.1, some v)
  | .simdreg => do
      let step ←
        match c.isa with
        | .cisc => do
            let code ← c.longRegisters.getLast?
            some ({ c with longRegisters := c.longRegisters.dropLast }, sp, code)
        | _ => do
            let s ← sp
            some (c, some (s + 3), (c.instruction.drop s).take 3)
      let name ← step.1.registerCodes.lookup step.2.2
      let tmp := step.1.regs name * 8
      let v ← read_data step.1.dataMemory tmp (tmp + 64)
      some (step.1, step.2.1, some v)
  | .memregoff => do
      let code ← c.longRegisters.getLast?
      let c1 := { c with longRegisters := c.longRegisters.dropLast }
      let name ← c1.registerCodes.lookup code
      let registerValue := twos_complement (c1.regs name) 16
      let immB ← c1.longImmediates.getLast?
      let c2 := { c1 with longImmediates := c1.longImmediates.dropLast }
      let offsetNumber := twos_complement (bitsToNat immB) 16
      let registerOffset := registerValue + offsetNumber
      let v ← read_dataI c2.dataMemory (registerOffset * 8) (registerOffset * 8 + 16)
      some (c2, sp, some v)
  | .imm w =>
      match c.isa with
      | .risc => do
          let s ← sp
          let n ← w
          some (c, some (s + n), some ((c.instruction.drop s).take n))
      | _ => do
          let immB ← c.longImmediates.getLast?
          some ({ c with longImmediates := c.longImmediates.dropLast }, sp, some immB)
  | .tos => do
      let r ← pop_tos c false false
      some (r.1, sp, some r.2)
  | .tospop => do
      let r ← pop_tos c false true
      some (r.1, sp, some r.2)
  | .tos2 => do
      let r ← pop_tos c true false
      some (r.1, sp, some r.2)
  | .memtos => do
      let r ← pop_tos c false true
      let tosVal := bitsToNat r.2 * 8
      let v ← read_data r.1.dataMemory tosVal (tosVal + 16)
      some (r.1, sp, some v)
  | .memir => do
      let ir ← getReg c "IR"
      let v ← read_data c.dataMemory (ir * 8) (ir * 8 + 16)
      some (c, sp, some v)
  | .memimm => do
      let startRead := bitsToNat c.longImmediateResult * 8
      let v ← read_data c.dataMemory startRead (startRead + 16)
      some (c, sp, some v)
  | .fr => do
      let v ← regState c "FR"
      some (c, sp, some v)
  | .ir => do
      let v ← regState c "IR"
      some (c, sp, some v)
  | .acc => do
      let v ← regState c "ACC"
      some (c, sp, some v)
  | .one => some (c, sp, some (toBits16 1))
  | _ => some (c, sp, Option.none)

/-- `CPU.__add_operands`: walk the alias list collecting 16-bit operand values,
threading the state (`TOS` pops, long-list pops) and the in-instruction position. -/
def add_operands (c : CPU) (sp : Option Nat) : List Tok → Option (CPU × List Bits)
  | [] => some (c, [])
  | t :: rest => do
      let (c1, sp1, v?) ← add_operand_one c sp t
      let (c2, vs) ← add_operands c1 sp1 rest
      some (c2, v?.toList ++ vs)

/-- `CPU.__determine_result_dest`: where the result goes, whether memory is written,
and whether the register stack pointer advances afterwards. -/
def determine_result_dest (c : CPU) (sp : Option Nat) (aliases : List Tok) :
    Option (CPU × Bool × Dest × Bool) := do
  let entry ← c.instructionsDict.lookup c.opcode
  match c.isa with
  | .stack => do
      let rt ← (match entry with | .sa _ lst => lst.head? | .rc _ _ _ => Option.none)
      match rt with
      | .tos => do
          let tos ← getReg c "TOS"
          some (c, true, Dest.mem (tos : Int), true)
      | .inp => do
          let tos ← getReg c "TOS"
          some (c, true, Dest.mem (tos : Int), true)
      | .swap => do
          let tos ← getReg c "TOS"
          some (c, true, Dest.mem (tos : Int), true)
      | .memtos => do
          let r ← pop_tos c false true
          some (r.1, true, Dest.mem ((bitsToNat r.2 : Nat) : Int), false)
      | .fr => do
          let _ ← getReg c "FR"
          some (c, false, Dest.reg "FR", false)
      | .stackpop => do
          let tos ← getReg c "TOS"
          some (c, true, Dest.mem (tos : Int), true)
      | .stackpopf => do
          let _ ← getReg c "FR"
          some (c, false, Dest.reg "FR", false)
      | .out => do
          let p := bitsToNat c.longImmediateResult
          let _ ← c.ports.lookup p
          some (c, false, Dest.port p, false)
      | _ => some (c, false, Dest.nodest, false)
  | .accumulator => do
      let rt ← (match entry with | .sa _ lst => lst.head? | .rc _ _ _ => Option.none)
      match rt with
      | .acc => do
          let _ ← getReg c "ACC"
          some (c, false, Dest.reg "ACC", false)
      | .inp => do
          let _ ← getReg c "ACC"
          some (c, false, Dest.reg "ACC", false)
      | .stackpop => do
          let lst ← (match entry with | .sa _ l => some l | .rc _ _ _ => Option.none)
          let dt ← lst.get? 1
          let name ← dt.upperName
          let _ ← getReg c name
          some (c, false, Dest.reg name, false)
      | .memir => do
          let ir ← getReg c "IR"
          some (c, true, Dest.mem (ir : Int), false)
      | .out => do
          let p := bitsToNat c.longImmediateResult
          let _ ← c.ports.lookup p
          some (c, false, Dest.port p, false)
      | .cmp => do
          let _ ← getReg c "FR"
          some (c, false, Dest.reg "FR", false)
      | .fr => do
          let _ ← getReg c "FR"
          some (c, false, Dest.reg "FR", false)
      | .ir => do
          let _ ← getReg c "IR"
          some (c, false, Dest.reg "IR", false)
      | _ => some (c, false, Dest.nodest, false)
  | _ => do
      let rt ← (match entry with | .rc _ t _ => some t | .sa _ _ => Option.none)
      match rt with
      | .firstop | .inp | .stackpop | .simd | .simdstore => do
          let code ←
            match c.isa with
            | .cisc => some c.longRegisterResult
            | _ => do
                let s ← sp
                some ((c.instruction.drop s).take 3)
          match aliases.head? with
          | some .reg => do
              let name ← c.registerCodes.lookup code
              some (c, false, Dest.reg name, false)
          | some .memreg => do
              let name ← c.registerCodes.lookup code
              some (c, true, Dest.mem ((c.regs name : Nat) : Int), false)
          | some .simdreg => do
              let name ← c.registerCodes.lookup code
              some (c, true, Dest.mem ((c.regs name : Nat) : Int), false)
          | some .memregoff => do
              let name ← c.registerCodes.lookup code
              let offset := twos_complement (bitsToNat c.longImmediateResult) 16
              some (c, true, Dest.mem ((c.regs name : Nat) + offset), false)
          | _ => some (c, false, Dest.nodest, false)
      | .flags => do
          let _ ← getReg c "FR"
          some (c, false, Dest.reg "FR", false)
      | .out =>
          if c.ioArch = "mmio" then Option.none
          else do
            let pnum ←
              match c.isa with
              | .cisc => some (bitsToNat c.longImmediateResult)
              | _ => do
                  let a0 ← aliases.head?
                  let immLen ← (match a0 with | .imm w => w | _ => Option.none)
                  let s ← sp
                  some (bitsToNat ((c.instruction.drop s).take immLen))
            let _ ← c.ports.lookup pnum
            some (c, false, Dest.port pnum, false)
      | _ => some (c, false, Dest.nodest, false)

/-- The result write-back shared by the `stackpop`/`stackpopf` branches, the ALU
default branch of `CPU.execute`, and `CPU.input_finish`: write the value into data
memory at the byte destination (moving `TOS` up by two afterwards when `tos_push`
is set) or into the held destination register object. -/
def write_result (c : CPU) (value : Bits) (mwa : Bool) (dest : Dest) (tosPush : Bool) :
    Option CPU :=
  if mwa then
    match dest with
    | .mem a => do
        let dm ← write_dataI c.dataMemory (a * 8) value
        let cB := setDataMem c dm
        if tosPush then
          if a + 2 < 0 then Option.none
          else writeRegData cB "TOS" (natBin (a + 2).toNat)
        else some cB
    | _ => Option.none
  else
    match dest with
    | .reg n => writeRegObj c n value
    | _ => Option.none

/-- The branch arithmetic shared by `call` and taken jumps: an instruction-count
delta is converted to a byte distance with the per-instruction size list recorded
at load time (`self.instr_size_list`). -/
def jump_distance_of (l : List Nat) (pp : Int) (jumpNum : Int) : Int :=
  if 0 ≤ jumpNum then ((pySlice l pp (pp + jumpNum)).sum : Int)
  else -(((pySlice l (pp + jumpNum) pp).sum : Int))

/-- The jump-condition evaluation of the `jmp` branch of `CPU.execute`, from the
low four flag-register bits `(CF, ZF, OF, SF)` and the first operand (used by `jc`).
An unlisted mnemonic keeps the default `should_jump = False`. -/
def jmp_should_jump (mnem : String) (vals : List Bits) (fr : Nat) : Option Bool :=
  let zeroFlag := fr.testBit 2
  let overflowFlag := fr.testBit 1
  let signFlag := fr.testBit 0
  if mnem = "jmp" then some true
  else if mnem = "jc" then (vals.head?).map (fun v => decide (v = List.replicate 16 true))
  else if mnem = "je" then some zeroFlag
  else if mnem = "jne" then some (!zeroFlag)
  else if mnem = "jg" then some ((signFlag == overflowFlag) && !zeroFlag)
  else if mnem = "jge" then some (signFlag == overflowFlag)
  else if mnem = "jl" then some (signFlag != overflowFlag)
  else if mnem = "jle" then some ((signFlag != overflowFlag) || zeroFlag)
  else some false

/-- Replace the device stored under a port key (the source mutates the shared
`Shell` object held in `ports_dictionary`). -/
def update_port (ports : List (Nat × Shell)) (k : Nat) (s : Shell) : List (Nat × Shell) :=
  ports.map (fun p => if p.1 = k then (p.1, s) else p)

/-- The result-category dispatch of `CPU.execute` after operands and destination are
known; returns the updated state and the `go_to_next_instruction` flag. -/
def exec_dispatch (c : CPU) (entry : InstrEntry) (aliases : List Tok) (vals : List Bits)
    (mwa : Bool) (dest : Dest) (tosPush : Bool) : Tok → Option (CPU × Bool)
  | .call => do
      let nextInstruction := c.programPointer + 1
      let cA ←
        if nextInstruction < 0 then Option.none
        else
          match c.isa with
          | .risc => writeRegData c "LR" (natBin nextInstruction.toNat)
          | _ => push_stack c (rjust 16 false (natBin nextInstruction.toNat))
      let operand ← aliases.head?
      let jumpNum ←
        if operand.isImm ∨ (aliases.length > 1 ∧ aliases.get? 1 = some (Tok.imm Option.none)) then
          match cA.isa with
          | .risc => do
              let immLen ← (match operand with | .imm w => w | _ => Option.none)
              let v0 ← vals.head?
              some (twos_complement (bitsToNat v0) immLen)
          | .cisc => do
              let v0 ← vals.head?
              some (twos_complement (bitsToNat v0) 16)
          | _ => some (twos_complement (bitsToNat cA.longImmediateResult) (instrBits cA.isa * 2))
        else do
          let fits ←
            if operand = .reg ∨ operand = .tos ∨ operand = .acc ∨ operand = .regoff then some true
            else (aliases.get? 1).map (fun t => decide (t = Tok.acc))
          if fits then do
            let v0 ← vals.head?
            some (twos_complement (bitsToNat v0) 16)
          else Option.none
      let jumpDistance := jump_distance_of cA.instrSizeList cA.programPointer jumpNum
      let ip ← getReg cA "IP"
      let newIp := (ip : Int) + jumpDistance
      if newIp < 0 then Option.none
      else do
        let cB ← writeRegData cA "IP" (natBin newIp.toNat)
        some ({ cB with programPointer := cB.programPointer + jumpNum }, false)
  | .ret => do
      let step ←
        match c.isa with
        | .risc => do
            let lr ← getReg c "LR"
            some (c, lr)
        | _ => do
            let r ← pop_stack c
            some (r.1, bitsToNat r.2)
      let cA := step.1
      let returnPoint := step.2
      let ip ← getReg cA "IP"
      let destination : Int :=
        if (returnPoint : Int) ≤ cA.programPointer then
          (ip : Int) - ((pySlice cA.instrSizeList (returnPoint : Int) cA.programPointer).sum : Int)
        else
          (ip : Int) - ((pySlice cA.instrSizeList cA.programPointer (returnPoint : Int)).sum : Int)
      if destination < 0 then Option.none
      else do
        let cB ← writeRegData cA "IP" (natBin destination.toNat)
        some ({ cB with programPointer := (returnPoint : Int) }, false)
  | .jmp => do
      let fr ← getReg c "FR"
      let sj ← jmp_should_jump entry.mnem vals fr
      if sj then do
        let a0 ← aliases.head?
        let numLen ←
          if a0.isImm ∧ c.isa = ISA.risc then
            match a0 with | .imm w => w | _ => Option.none
          else some 16
        let jumpNum ←
          match c.isa with
          | .risc => do
              let v0 ← vals.head?
              some (twos_complement (bitsToNat v0) numLen)
          | .cisc => do
              let v0 ← vals.head?
              some (twos_complement (bitsToNat v0) numLen)
          | _ => do
              let alast ← aliases.getLast?
              if alast.isTos ∨ alast = .acc ∨ alast = .regoff then do
                let vl ← vals.getLast?
                some (twos_complement (bitsToNat vl) numLen)
              else some (twos_complement (bitsToNat c.longImmediateResult) numLen)
        let jumpDistance := jump_distance_of c.instrSizeList c.programPointer jumpNum
        let ip ← getReg c "IP"
        let newIp := (ip : Int) + jumpDistance
        if newIp < 0 then Option.none
        else do
          let cB ← writeRegData c "IP" (natBin newIp.toNat)
          some ({ cB with programPointer := cB.programPointer + jumpNum }, false)
      else some (c, true)
  | .enter => do
      let bp ← regState c "BP"
      let cA ← push_stack c bp
      let sp ← regState cA "SP"
      let cB ← writeRegData cA "BP" sp
      let spv ← getReg cB "SP"
      let v0 ← vals.head?
      let newStackPointerValue := (spv : Int) - (bitsToNat v0 : Int)
      if newStackPointerValue < 0 then Option.none
      else do
        let cC ← writeRegData cB "SP" (natBin newStackPointerValue.toNat)
        some (cC, true)
  | .leave => do
      let bp ← regState c "BP"
      let cA ← writeRegData c "SP" bp
      let r ← pop_stack cA
      let cB ← writeRegData r.1 "BP" r.2
      some (cB, true)
  | .stackpush => do
      let v0 ← vals.head?
      let cA ← push_stack c v0
      some (cA, true)
  | .stackpop => do
      let r ← pop_stack c
      let cA ← write_result r.1 r.2 mwa dest tosPush
      some (cA, true)
  | .stackpopf => do
      let r ← pop_stack c
      let cA ← write_result r.1 r.2 mwa dest tosPush
      some (cA, true)
  | .out => do
      match dest with
      | .port p => do
          let sh ← c.ports.lookup p
          let vl ← vals.getLast?
          some ({ c with ports := update_port c.ports p (out_shell sh vl) }, true)
      | _ => Option.none
  | .inp => some ({ c with isInputActive := true, inputSaved := some (mwa, dest, tosPush) }, true)
  | .swap => do
      match dest with
      | .mem a => do
          let v0 ← vals.head?
          let v1 ← vals.get? 1
          let dm ← write_dataI c.dataMemory (a * 8) v0
          let cA := setDataMem c dm
          let dm2 ← write_dataI cA.dataMemory (a * 8 + 16) v1
          let cB := setDataMem cA dm2
          if a + 4 < 0 then Option.none
          else do
            let cC ← writeRegData cB "TOS" (natBin (a + 4).toNat)
            some (cC, true)
      | _ => Option.none
  | .simdstore => do
      let r0 ← regState c "R00"
      let r1 ← regState c "R01"
      let r2 ← regState c "R02"
      let r3 ← regState c "R03"
      let result := r0 ++ r1 ++ r2 ++ r3
      match dest with
      | .mem a => do
          let dm ← write_dataI c.dataMemory (a * 8) result
          some (setDataMem c dm, true)
      | _ => Option.none
  | .simd => do
      let fn ← c.aluTable.lookup (entry.mnem.dropRight 1)
      let v0 ← vals.head?
      let vl ← vals.getLast?
      let fr ← getReg c "FR"
      let lane0 := fn [(v0.drop 0).take 16, vl] fr
      let lane1 := fn [(v0.drop 16).take 16, vl] lane0.2
      let lane2 := fn [(v0.drop 32).take 16, vl] lane1.2
      let lane3 := fn [(v0.drop 48).take 16, vl] lane2.2
      let cA := setRegUnchecked c "FR" lane3.2
      let result := lane0.1 ++ lane1.1 ++ lane2.1 ++ lane3.1
      match dest with
      | .mem a => do
          let dm ← write_dataI cA.dataMemory (a * 8) result
          some (setDataMem cA dm, true)
      | _ => Option.none
  | .simdload => do
      let v0 ← vals.head?
      let cA ← writeRegData c "R00" ((v0.drop 0).take 16)
      let cB ← writeRegData cA "R01" ((v0.drop 16).take 16)
      let cC ← writeRegData cB "R02" ((v0.drop 32).take 16)
      let cD ← writeRegData cC "R03" ((v0.drop 48).take 16)
      some (cD, true)
  | .simdreg => some (c, true)
  | _ => do
      let fn ← c.aluTable.lookup entry.mnem
      let fr ← getReg c "FR"
      let r := fn vals fr
      let cA := setRegUnchecked c "FR" r.2
      let cB ← write_result cA r.1 mwa dest tosPush
      some (cB, true)

/-- `CPU.execute`: collect operands, resolve the destination, then dispatch on the
opcode's result category; returns the state and `go_to_next_instruction`. -/
def execute (c0 : CPU) : Option (CPU × Bool) := do
  let spStart := determine_start_point c0
  let entry ← c0.instructionsDict.lookup c0.opcode
  let aliases ← operand_aliases_of c0.isa entry
  let (c1, vals) ← add_operands c0 spStart aliases
  let (c2, mwa, dest, tosPush) ← determine_result_dest c1 spStart aliases
  let rt ← res_type_of c2.isa entry
  exec_dispatch c2 entry aliases vals mwa dest tosPush rt

/-- `CPU.__execute_cycle`: skip `nop`, otherwise execute; afterwards, unless a
control transfer already moved it, advance `IP` by
`instr-bits / byte-bits + additional_jump` and `program_pointer` by one. -/
def execute_cycle (c : CPU) : Option CPU := do
  let entry ← c.instructionsDict.lookup c.opcode
  let step ← if entry.mnem = "nop" then some (c, true) else execute c
  let c1 := step.1
  if step.2 then do
    let ip ← getReg c1 "IP"
    let bytesPerInstruction := instrBits c1.isa / byteBits c1.isa
    let c2 ← writeRegData c1 "IP" (natBin (ip + bytesPerInstruction + c1.additionalJump))
    some { c2 with programPointer := c2.programPointer + 1 }
  else some c1

/-- `CPU.web_next_instruction`: the step function.  An all-zero fetched instruction
word (halt) and a pending input return immediately; the very first call only fetches;
otherwise it executes the previously fetched instruction, refreshes MMIO devices,
and fetches the next instruction. -/
def web_next_instruction (c : CPU) : Option CPU :=
  if c.instruction = List.replicate (instrBits c.isa) false then some c
  else if c.isInputActive then some c
  else if c.firstInstruction then read_instruction { c with firstInstruction := false }
  else do
    let c1 ← execute_cycle c
    let c2 ← update_devices c1
    read_instruction c2

/-- `CPU.input_finish`: pad the value to 16 bits, clear `is_input_active`, and write
to the destination saved by the last `in` instruction.  No pending-input check is
performed. -/
def input_finish (c : CPU) (char : Bits) : Option CPU := do
  let ch := rjust 16 false char
  let c0 := { c with isInputActive := false }
  let saved ← c0.inputSaved
  write_result c0 ch saved.1 saved.2.1 saved.2.2

/-- Result category of the currently fetched instruction. -/
def curr_res_type (c : CPU) : Option Tok :=
  (c.instructionsDict.lookup c.opcode).bind (res_type_of c.isa)

/-- Whether the current cycle's jump predicate would succeed: replays the operand
and destination pipeline exactly as `CPU.execute` does before evaluating the flags. -/
def jmp_taken (c : CPU) : Option Bool := do
  let spStart := determine_start_point c
  let entry ← c.instructionsDict.lookup c.opcode
  let aliases ← operand_aliases_of c.isa entry
  let (c1, vals) ← add_operands c spStart aliases
  let (c2, _, _, _) ← determine_result_dest c1 spStart aliases
  let fr ← getReg c2 "FR"
  jmp_should_jump entry.mnem vals fr

/-- The register name the accumulator `stackpop` destination resolves to. -/
def accumulator_stackpop_dest : InstrEntry → Option String
  | .sa _ lst => (lst.get? 1).bind Tok.upperName
  | .rc _ _ _ => Option.none

/-- Facts about the externally supplied ISA descriptor data: no register code and no
accumulator `stackpop` destination names the special register `IP` (spec §3 lists
`IP` among the special, non-general-purpose registers). -/
def tables_ok (c : CPU) : Prop :=
  (∀ p ∈ c.registerCodes, p.2 ≠ "IP") ∧
  (∀ q ∈ c.instructionsDict, accumulator_stackpop_dest q.2 ≠ some "IP")

/-- The kinds of `AssemblerError`, by the distinct messages `assembler.py` raises,
matching the names of spec §7. -/
inductive AsmErr
  | missingComma
  | unknownMnemonic
  | invalidOperand
  | immediateOutOfRange
  deriving DecidableEq, Repr

/-- A failure of the assembler: an `AssemblerError` (which the overload-resolution
loop catches and skips) or a non-`AssemblerError` crash such as a `ValueError`
(which propagates). -/
inductive TErr
  | asm (e : AsmErr)
  | crash
  deriving DecidableEq, Repr

/-- The assembler's per-ISA data, as `Assembler.__init__` loads it: the opcode table
grouped by mnemonic in table order, the register-name-to-code map, and the
instruction width the emitted line is padded to. -/
structure AsmCtx where
  instructions : List (Str × List (Bits × List Tok))
  registerNames : List (Str × Bits)
  instrWidth : Nat

/-- `Assembler.__is_number`: the text parses as a decimal integer. -/
def is_number (s : Str) : Bool := (py_int s).isSome

/-- `Assembler.__valid_type`: the syntactic predicate of one operand against one
operand type; types other than `reg`/`immN`/`memreg` fall through (Python returns
`None`). -/
def valid_type (names : List (Str × Bits)) (op : Str) : Tok → Bool
  | .reg => op.head? == some '%' && (names.lookup (op.drop 1)).isSome
  | .imm _ => op.head? == some '$' && is_number (op.drop 1)
  | .memreg =>
      op.head? == some '[' && op.getLast? == some ']' &&
        (let inner := (op.drop 1).dropLast
         inner.head? == some '%' && (names.lookup (inner.drop 1)).isSome)
  | _ => false

/-- One iteration of the encoding loop of `Assembler.__encode_operands`: validate
the operand against its type and append its encoding to the line. -/
def encode_operand_one (names : List (Str × Bits)) (line : Bits) (op : Str) (t : Tok) :
    Except TErr Bits :=
  if valid_type names op t then
    match t with
    | .reg =>
        match names.lookup (op.drop 1) with
        | some code => .ok (line ++ code)
        | Option.none => .error .crash
    | .memreg =>
        match names.lookup ((op.drop 2).dropLast) with
        | some code => .ok (line ++ code)
        | Option.none => .error .crash
    | .imm w =>
        match py_int (op.drop 1) with
        | some num =>
            match w with
            | some bitLen =>
                if ¬(-(2 ^ (bitLen - 1) : Int) < num ∧ num < 2 ^ (bitLen - 1)) then
                  .error (.asm .immediateOutOfRange)
                else .ok (line ++ rjust bitLen false (natBin (twos_complement num bitLen).toNat))
            | Option.none => .error .crash
        | Option.none => .error .crash
    | _ => .error .crash
  else .error (.asm .invalidOperand)

/-- The operand fold of `Assembler.__encode_operands`. -/
def encode_loop (names : List (Str × Bits)) : Bits → List (Str × Tok) → Except TErr Bits
  | line, [] => .ok line
  | line, (op, t) :: rest =>
      match encode_operand_one names line op t with
      | .ok line' => encode_loop names line' rest
      | .error e => .error e

/-- `Assembler.__encode_operands`: check the operand count, encode each operand after
its type's validation, and right-pad the line with zeros to the instruction width. -/
def encode_operands (names : List (Str × Bits)) (instrWidth : Nat) (operands : List Str)
    (info : Bits × List Tok) : Except TErr Bits :=
  if operands.length ≠ info.2.length then .error (.asm .invalidOperand)
  else
    match encode_loop names info.1 (operands.zip info.2) with
    | .ok line => .ok (line ++ List.replicate (instrWidth - line.length) false)
    | .error e => .error e

/-- The comma loop of `Assembler.translate`: every operand except the last must end
with a comma, which is stripped. -/
def fix_operand_commas : List Str → Except TErr (List Str)
  | [] => .ok []
  | [o] => .ok [o]
  | o :: rest =>
      if o.getLast? = some ',' then
        match fix_operand_commas rest with
        | .ok r => .ok (o.dropLast :: r)
        | .error e => .error e
      else .error (.asm .missingComma)

/-- The overload-resolution loop of `Assembler.translate`: try each encoding in table
order, catching `AssemblerError`s; the `mov_low`/`mov_high` 6-bit opcodes are
truncated to 5 bits first; an empty final line is rejected. -/
def try_encodings (names : List (Str × Bits)) (w : Nat) (mnem : Str) (operands : List Str) :
    List (Bits × List Tok) → Except TErr Bits
  | [] => .error (.asm .invalidOperand)
  | info :: rest =>
      let info' :=
        if (mnem = "mov_low".toList ∨ mnem = "mov_high".toList) ∧ info.1.length ≠ 5 then
          (info.1.dropLast, info.2)
        else info
      match encode_operands names w operands info' with
      | .ok b => if b = [] then .error (.asm .invalidOperand) else .ok b
      | .error (.asm _) => try_encodings names w mnem operands rest
      | .error .crash => .error .crash

/-- One line of `Assembler.translate`: split on spaces, check and strip the operand
commas, look up the mnemonic, then encode with the single encoding or resolve the
overloads in table order. -/
def translate_line (ctx : AsmCtx) (line : Str) : Except TErr Bits :=
  let args := split_char ' ' line
  let mnem := args.headD []
  let operands := args.tail
  match fix_operand_commas operands with
  | .error e => .error e
  | .ok ops =>
      match ctx.instructions.lookup mnem with
      | Option.none => .error (.asm .unknownMnemonic)
      | some infos =>
          match infos with
          | [info] => encode_operands ctx.registerNames ctx.instrWidth ops info
          | _ => try_encodings ctx.registerNames ctx.instrWidth mnem ops infos

/-- The line loop of `Assembler.translate`: translate each line in order, stopping
at the first uncaught error, collecting the emitted lines. -/
def translate_lines (ctx : AsmCtx) : List Str → Except TErr (List Bits)
  | [] => Except.ok []
  | line :: rest =>
      match translate_line ctx line with
      | .ok b =>
          match translate_lines ctx rest with
          | .ok bs => .ok (b :: bs)
          | .error e => .error e
      | .error e => .error e

/-- `Assembler.translate`: split the source on newlines and translate line by line;
the output listing is the emitted lines (the source renders them joined, each
followed by a newline, so the line count is the length of this list). -/
def asm_translate (ctx : AsmCtx) (text : Str) : Except TErr (List Bits) :=
  translate_lines ctx (split_char '\n' text)

/-- Iterated stepping: `k` successive `web_next_instruction` calls. -/
def stepN : Nat → CPU → Option CPU
  | 0, c => some c
  | k + 1, c => (web_next_instruction c).bind (stepN k)

/-- An all-zero memory of `n` bytes. -/
def zeroMem (n : Nat) : Mem := { sizeBytes := n, bit := fun _ => false }

/-- An `n`-byte memory holding the bits `l` from bit address `start` on, zero elsewhere. -/
def memAt (n start : Nat) (l : Bits) : Mem :=
  { sizeBytes := n, bit := fun i => if start ≤ i then l.getD (i - start) false else false }

/-- A sample 6-bit register-ISA opcode assigned to `nop`. -/
def opcNop : Bits := [false, false, false, false, false, true]

/-- A sample 6-bit register-ISA opcode assigned to `call`. -/
def opcCall : Bits := [false, false, false, false, true, false]

/-- A sample 6-bit register-ISA opcode assigned to `ret`. -/
def opcRet : Bits := [false, false, false, false, true, true]

/-- A sample 6-bit register-ISA opcode assigned to `je`. -/
def opcJe : Bits := [false, false, false, true, false, false]

/-- The all-zero 6-bit opcode. -/
def opcZero : Bits := List.replicate 6 false

/-- A register-code table for the register ISA: the four general-purpose registers. -/
def riscCodes : List (Bits × String) :=
  [([false, false, false], "R00"), ([false, false, true], "R01"),
   ([false, true, false], "R02"), ([false, true, true], "R03")]

/-- The register names of the register ISA. -/
def riscNames : List String := ["R00", "R01", "R02", "R03", "SP", "IP", "LR", "FR"]

/-- A small register-ISA instruction table: `nop`, `call imm10`, `ret`, `je imm10`. -/
def riscDict : List (Bits × InstrEntry) :=
  [(opcNop, InstrEntry.rc "nop" (Tok.word "nop") []),
   (opcCall, InstrEntry.rc "call" Tok.call [Tok.imm (some 10)]),
   (opcRet, InstrEntry.rc "ret" Tok.ret []),
   (opcJe, InstrEntry.rc "je" Tok.jmp [Tok.imm (some 10)])]

/-- A freshly built register-ISA CPU with the spec's default memory layout
(`memory_size = 1024`, `tos_start = 256`, `stack_start = 1024`), empty device list
and zeroed registers. -/
def cpu0 : CPU :=
  { isa := ISA.risc, architecture := "harvard", ioArch := "special",
    instructionsDict := riscDict, registerCodes := riscCodes, aluTable := [],
    regNames := riscNames, regs := fun _ => 0,
    dataMemory := zeroMem 1024, programMemory := zeroMem 1024,
    ports := [], programPointer := 0, instrSizeList := [],
    instruction := [], opcode := [], additionalJump := 0,
    longRegisters := [], longRegisterResult := [], longImmediates := [],
    longImmediateResult := [], firstInstruction := false, isInputActive := false,
    inputSaved := Option.none, tosStart := 256, stackStart := 1024 }

/-- The 16-bit `nop` instruction word. -/
def nopWord : Bits := opcNop ++ List.replicate 10 false

/-- The 16-bit `ret` instruction word. -/
def retWord : Bits := opcRet ++ List.replicate 10 false

/-- The 16-bit `call $-2` word: opcode then the 10-bit two's-complement image of `-2`. -/
def callWordM2 : Bits :=
  opcCall ++ [true, true, true, true, true, true, true, true, true, false]

/-- The four-instruction program `ret; nop; call $-2; nop`, two bytes each. -/
def c1prog : Bits := retWord ++ nopWord ++ callWordM2 ++ nopWord

/-- The CPU about to execute the backward `call $-2` at program pointer 2: the
program is loaded at the spec's `program_start = 512`, so the `call` word sits at
byte 516 and `IP = 516`. -/
def c1cpu : CPU :=
  { cpu0 with
    regs := fun n => if n = "IP" then 516 else 0,
    programMemory := memAt 1024 4096 c1prog,
    programPointer := 2, instrSizeList := [2, 2, 2, 2],
    instruction := callWordM2, opcode := opcCall }

/-- The state after the `call` executes: the `ret` at program pointer 0 is fetched. -/
def c1cpu' : CPU := (web_next_instruction c1cpu).getD cpu0

/-- The state after the `ret` executes. -/
def c1cpu'' : CPU := (web_next_instruction c1cpu').getD cpu0

/-- A CPU with a fetched `nop` and `IP = 516`, for observing one auto-advance cycle. -/
def c2cpu : CPU :=
  { cpu0 with
    regs := fun n => if n = "IP" then 516 else 0,
    programMemory := memAt 1024 4096 (nopWord ++ nopWord),
    instrSizeList := [2, 2],
    instruction := nopWord, opcode := opcNop }

/-- The state after one executed cycle of `c2cpu`. -/
def c2cpu' : CPU := (execute_cycle c2cpu).getD cpu0

/-- An instruction word whose opcode bits are all zero but whose payload is not. -/
def c3word : Bits := List.replicate 15 false ++ [true]

/-- An instruction table that also assigns the all-zero opcode (to a `nop`). -/
def c3dict : List (Bits × InstrEntry) :=
  (opcZero, InstrEntry.rc "nop" (Tok.word "nop") []) :: riscDict

/-- A CPU whose fetched instruction has all-zero opcode bits but a nonzero payload. -/
def c3cpu : CPU :=
  { cpu0 with
    instructionsDict := c3dict,
    regs := fun n => if n = "IP" then 516 else 0,
    programMemory := memAt 1024 4096 (c3word ++ nopWord),
    instrSizeList := [2, 2],
    instruction := c3word, opcode := opcZero }

/-- The state after stepping `c3cpu` once. -/
def c3cpu' : CPU := (web_next_instruction c3cpu).getD cpu0

/-- A CPU whose fetched instruction word is all-zero: a halted machine. -/
def c3wcpu : CPU := { cpu0 with instruction := List.replicate 16 false }

/-- A CPU with an empty downward stack: `SP = stack_start = 1024`. -/
def c4cpu : CPU := { cpu0 with regs := fun n => if n = "SP" then 1024 else 0 }

/-- The assembler context of a one-mnemonic table: `nop` with the 6-bit opcode,
16-bit instruction width. -/
def actx : AsmCtx :=
  { instructions := [("nop".toList, [(opcNop, [])])],
    registerNames := [], instrWidth := 16 }

/-- A three-line source whose middle line is blank. -/
def c7text : Str := "nop\n\nnop".toList

/-- The same source without the blank line. -/
def c7good : Str := "nop\nnop".toList

/-- A CPU holding a saved `in` destination (register `R00`) but no pending input. -/
def c9cpu : CPU := { cpu0 with inputSaved := some (false, Dest.reg "R00", false) }

/-- The state `input_finish` produces from `c9cpu` on the one-bit value `1`. -/
def c9cpu' : CPU := (input_finish c9cpu [true]).getD cpu0

/-- A freshly constructed CPU before its first `step`: `first_instruction` is set and
the instruction buffer is still empty. -/
def c10cpu : CPU :=
  { cpu0 with
    firstInstruction := true,
    regs := fun n => if n = "IP" then 516 else 0,
    programMemory := memAt 1024 4096 (nopWord ++ nopWord),
    instrSizeList := [2, 2] }

theorem bitsToNat_append (l r : Bits) :
    bitsToNat (l ++ r) = bitsToNat l * 2 ^ r.length + bitsToNat r := by
  induction l with
  | nil => simp [bitsToNat]
  | cons b t ih =>
      simp only [List.cons_append, bitsToNat, List.length_append, List.append_eq, ih]
      cases b <;> simp [pow_add] <;> try ring

theorem bitsToNat_replicate_false (n : Nat) : bitsToNat (List.replicate n false) = 0 := by
  induction n with
  | zero => rfl
  | succ k ih => simp [List.replicate, bitsToNat, ih]

theorem bitsToNat_rjust_false (w : Nat) (b : Bits) : bitsToNat (rjust w false b) = bitsToNat b := by
  simp [rjust, bitsToNat_append, bitsToNat_replicate_false]

theorem length_rjust (w : Nat) (f : Bool) (b : Bits) :
    (rjust w f b).length = max w b.length := by
  simp [rjust]
  omega

theorem bitsToNat_lt (l : Bits) : bitsToNat l < 2 ^ l.length := by
  induction l with
  | nil => simp [bitsToNat]
  | cons b t ih =>
      simp only [bitsToNat, List.length_cons, pow_succ]
      cases b <;> simp <;> omega

theorem natBinCore_sound : ∀ fuel n, n ≤ fuel → bitsToNat (natBinCore fuel n) = n := by
  intro fuel
  induction fuel with
  | zero => intro n h; interval_cases n; rfl
  | succ f ih =>
      intro n h
      by_cases h0 : n = 0
      · simp [natBinCore, h0, bitsToNat]
      · have hdiv : n / 2 ≤ f := by
          have := Nat.div_lt_self (Nat.pos_of_ne_zero h0) (by norm_num : 1 < 2)
          omega
        simp only [natBinCore, h0, if_false, bitsToNat_append, ih _ hdiv]
        have := Nat.div_add_mod n 2
        have hm : n % 2 = 0 ∨ n % 2 = 1 := by omega
        rcases hm with h1 | h1 <;> simp [bitsToNat, h1] <;> omega

theorem natBin_sound (n : Nat) : bitsToNat (natBin n) = n := by
  by_cases h : n = 0
  · simp [natBin, h, bitsToNat]
  · simp [natBin, h, natBinCore_sound n n le_rfl]

theorem natBinCore_length : ∀ fuel n k, n ≤ fuel → n < 2 ^ k → (natBinCore fuel n).length ≤ k := by
  intro fuel
  induction fuel with
  | zero => intro n k h _; interval_cases n; simp [natBinCore]
  | succ f ih =>
      intro n k h hk
      by_cases h0 : n = 0
      · simp [natBinCore, h0]
      · have hkpos : k ≠ 0 := by
          intro h'
          rw [h'] at hk
          omega
        have hdiv : n / 2 ≤ f := by
          have := Nat.div_lt_self (Nat.pos_of_ne_zero h0) (by norm_num : 1 < 2)
          omega
        have hdk : n / 2 < 2 ^ (k - 1) := by
          have h2 : n < 2 * 2 ^ (k - 1) := by
            have : 2 * 2 ^ (k - 1) = 2 ^ k := by
              rw [← pow_succ']
              congr 1
              omega
            omega
          exact Nat.div_lt_of_lt_mul h2
        have := ih (n / 2) (k - 1) hdiv hdk
        simp only [natBinCore, h0, if_false, List.length_append, List.length_cons,
          List.length_nil]
        omega

theorem natBin_length_le (n k : Nat) (hk : 1 ≤ k) (h : n < 2 ^ k) : (natBin n).length ≤ k := by
  by_cases h0 : n = 0
  · subst h0; simpa [natBin] using hk
  · simp only [natBin, h0, if_false]
    exact natBinCore_length n n k le_rfl h

theorem map_range_getD (v : Bits) : (List.range v.length).map (fun i => v.getD i false) = v := by
  induction v with
  | nil => rfl
  | cons b t ih =>
      simp only [List.length_cons, List.range_succ_eq_map, List.map_cons, List.getD_cons_zero,
        List.map_map]
      have h : (List.range t.length).map ((fun i => (b :: t).getD i false) ∘ Nat.succ)
          = (List.range t.length).map (fun i => t.getD i false) := by
        apply List.map_congr_left
        intro i _
        simp [List.getD_cons_succ, Function.comp]
      rw [h, ih]

theorem lookup_mem {α β : Type} [BEq α] [LawfulBEq α] (l : List (α × β)) (k : α) (v : β)
    (h : l.lookup k = some v) : (k, v) ∈ l := by
  induction l with
  | nil => simp [List.lookup] at h
  | cons p rest ih =>
      rw [List.lookup] at h
      by_cases hk : k == p.1
      · have hkeq := eq_of_beq hk
        simp [hk] at h
        subst h
        subst hkeq
        rw [List.mem_cons]
        left
        exact Prod.mk.eta
      · simp [hk] at h
        rw [List.mem_cons]
        right
        exact ih h

/-- The state components whose preservation the invariant claims rest on: the `IP`
cell, the register-name table, the fetch-recorded `additional_jump`, the ISA, and
the program pointer. -/
def core_preserved (c c' : CPU) : Prop :=
  c'.regs "IP" = c.regs "IP" ∧ c'.regNames = c.regNames ∧
  c'.additionalJump = c.additionalJump ∧ c'.isa = c.isa ∧
  c'.programPointer = c.programPointer ∧ c'.registerCodes = c.registerCodes ∧
  c'.instructionsDict = c.instructionsDict

theorem core_preserved_refl (c : CPU) : core_preserved c c :=
  ⟨rfl, rfl, rfl, rfl, rfl, rfl, rfl⟩

theorem core_preserved_trans {a b c : CPU} (h1 : core_preserved a b) (h2 : core_preserved b c) :
    core_preserved a c := by
  obtain ⟨x1, x2, x3, x4, x5, x6, x7⟩ := h1
  obtain ⟨y1, y2, y3, y4, y5, y6, y7⟩ := h2
  exact ⟨y1.trans x1, y2.trans x2, y3.trans x3, y4.trans x4, y5.trans x5, y6.trans x6,
    y7.trans x7⟩

theorem tables_ok_core {c c' : CPU} (hp : core_preserved c c') (hT : tables_ok c) :
    tables_ok c' := by
  obtain ⟨_, _, _, _, _, h6, h7⟩ := hp
  unfold tables_ok at hT ⊢
  rw [h6, h7]
  exact hT

theorem getReg_core {c c' : CPU} (h : core_preserved c c') : getReg c' "IP" = getReg c "IP" := by
  obtain ⟨h1, h2, _, _, _, _, _⟩ := h
  unfold getReg
  rw [h1, h2]

theorem setRegUnchecked_core (c : CPU) (n : String) (v : Nat) (h : n ≠ "IP") :
    core_preserved c (setRegUnchecked c n v) := by
  refine ⟨?_, rfl, rfl, rfl, rfl, rfl, rfl⟩
  unfold setRegUnchecked
  simp only
  rw [if_neg (fun hc => h hc.symm)]

theorem setDataMem_core (c : CPU) (m : Mem) : core_preserved c (setDataMem c m) := by
  unfold setDataMem
  split <;> exact ⟨rfl, rfl, rfl, rfl, rfl, rfl, rfl⟩

theorem writeRegData_core {c c' : CPU} {n : String} {b : Bits} (h : writeRegData c n b = some c')
    (hn : n ≠ "IP") : core_preserved c c' := by
  unfold writeRegData at h
  by_cases h1 : n ∈ c.regNames
  · rw [if_pos h1] at h
    by_cases h2 : b.length ≤ 16
    · rw [if_pos h2] at h
      cases h
      exact setRegUnchecked_core c n _ hn
    · rw [if_neg h2] at h
      cases h
  · rw [if_neg h1] at h
    cases h

theorem writeRegObj_core {c c' : CPU} {n : String} {b : Bits} (h : writeRegObj c n b = some c')
    (hn : n ≠ "IP") : core_preserved c c' := by
  unfold writeRegObj at h
  by_cases h2 : b.length ≤ 16
  · rw [if_pos h2] at h
    cases h
    exact setRegUnchecked_core c n _ hn
  · rw [if_neg h2] at h
    cases h

theorem push_stack_core {c c' : CPU} {v : Bits} (h : push_stack c v = some c') :
    core_preserved c c' := by
  simp only [push_stack, Option.bind_eq_bind, Option.bind_eq_some, Option.some.injEq] at h
  obtain ⟨sp, hsp, dm, hdm, h⟩ := h
  subst h
  exact core_preserved_trans (setDataMem_core c dm) (setRegUnchecked_core _ "SP" _ (by decide))

theorem pop_stack_core {c : CPU} {r : CPU × Bits} (h : pop_stack c = some r) :
    core_preserved c r.1 := by
  simp only [pop_stack, Option.bind_eq_bind, Option.bind_eq_some, Option.some.injEq] at h
  obtain ⟨sp, hsp, c1, hc1, v, hv, h⟩ := h
  subst h
  exact writeRegData_core hc1 (by decide)

theorem pop_tos_core {c : CPU} {s p : Bool} {r : CPU × Bits} (h : pop_tos c s p = some r) :
    core_preserved c r.1 := by
  simp only [pop_tos, Option.bind_eq_bind, Option.bind_eq_some, Option.some.injEq] at h
  obtain ⟨tos, htos, v, hv, h⟩ := h
  split at h
  · split at h
    · cases hc1 : writeRegData c "TOS" (natBin (tos - 2)) with
      | none =>
          rw [hc1] at h
          simp at h
      | some c1 =>
          rw [hc1] at h
          simp only [Option.some_bind, Option.some.injEq] at h
          subst h
          exact writeRegData_core hc1 (by decide)
    · cases h
  · simp only [Option.some.injEq] at h
    subst h
    exact core_preserved_refl c

theorem add_operand_one_core (c : CPU) (sp : Option Nat) (t : Tok)
    (r : CPU × Option Nat × Option Bits) (h : add_operand_one c sp t = some r) :
    core_preserved c r.1 := by
  cases t
  case reg =>
      simp only [add_operand_one] at h
      split at h <;>
        (simp only [Option.bind_eq_bind, Option.bind_eq_some, Option.some.injEq] at h
         obtain ⟨x1, hx1, x2, hx2, h⟩ := h
         subst h
         exact ⟨rfl, rfl, rfl, rfl, rfl, rfl, rfl⟩)
  case regoff =>
      simp only [add_operand_one, Option.bind_eq_bind, Option.bind_eq_some,
        Option.some.injEq] at h
      obtain ⟨code, hcode, name, hname, immB, himm, h⟩ := h
      subst h
      exact ⟨rfl, rfl, rfl, rfl, rfl, rfl, rfl⟩
  case memreg =>
      simp only [add_operand_one] at h
      split at h <;>
        (simp only [Option.bind_eq_bind, Option.bind_eq_some, Option.some_bind,
           Option.some.injEq] at h
         obtain ⟨x1, hx1, x2, hx2, x3, hx3, h⟩ := h
         subst h
         exact ⟨rfl, rfl, rfl, rfl, rfl, rfl, rfl⟩)
  case simdreg =>
      simp only [add_operand_one] at h
      split at h <;>
        (simp only [Option.bind_eq_bind, Option.bind_eq_some, Option.some_bind,
           Option.some.injEq] at h
         obtain ⟨x1, hx1, x2, hx2, x3, hx3, h⟩ := h
         subst h
         exact ⟨rfl, rfl, rfl, rfl, rfl, rfl, rfl⟩)
  case memregoff =>
      simp only [add_operand_one, Option.bind_eq_bind, Option.bind_eq_some,
        Option.some.injEq] at h
      obtain ⟨code, hcode, name, hname, immB, himm, v, hv, h⟩ := h
      subst h
      exact ⟨rfl, rfl, rfl, rfl, rfl, rfl, rfl⟩
  case imm =>
      simp only [add_operand_one] at h
      split at h <;>
        (simp only [Option.bind_eq_bind, Option.bind_eq_some, Option.some.injEq] at h
         first
         | (obtain ⟨x1, hx1, x2, hx2, h⟩ := h
            subst h
            exact ⟨rfl, rfl, rfl, rfl, rfl, rfl, rfl⟩)
         | (obtain ⟨x1, hx1, h⟩ := h
            subst h
            exact ⟨rfl, rfl, rfl, rfl, rfl, rfl, rfl⟩))
  case tos =>
      simp only [add_operand_one, Option.bind_eq_bind, Option.bind_eq_some,
        Option.some.injEq] at h
      obtain ⟨pr, hpr, h⟩ := h
      subst h
      exact pop_tos_core hpr
  case tospop =>
      simp only [add_operand_one, Option.bind_eq_bind, Option.bind_eq_some,
        Option.some.injEq] at h
      obtain ⟨pr, hpr, h⟩ := h
      subst h
      exact pop_tos_core hpr
  case tos2 =>
      simp only [add_operand_one, Option.bind_eq_bind, Option.bind_eq_some,
        Option.some.injEq] at h
      obtain ⟨pr, hpr, h⟩ := h
      subst h
      exact pop_tos_core hpr
  case memtos =>
      simp only [add_operand_one, Option.bind_eq_bind, Option.bind_eq_some,
        Option.some.injEq] at h
      obtain ⟨pr, hpr, v, hv, h⟩ := h
      subst h
      exact pop_tos_core hpr
  case memir =>
      simp only [add_operand_one, Option.bind_eq_bind, Option.bind_eq_some,
        Option.some.injEq] at h
      obtain ⟨ir, hir, v, hv, h⟩ := h
      subst h
      exact core_preserved_refl c
  case memimm =>
      simp only [add_operand_one, Option.bind_eq_bind, Option.bind_eq_some,
        Option.some.injEq] at h
      obtain ⟨v, hv, h⟩ := h
      subst h
      exact core_preserved_refl c
  case fr =>
      simp only [add_operand_one, Option.bind_eq_bind, Option.bind_eq_some,
        Option.some.injEq] at h
      obtain ⟨v, hv, h⟩ := h
      subst h
      exact core_preserved_refl c
  case ir =>
      simp only [add_operand_one, Option.bind_eq_bind, Option.bind_eq_some,
        Option.some.injEq] at h
      obtain ⟨v, hv, h⟩ := h
      subst h
      exact core_preserved_refl c
  case acc =>
      simp only [add_operand_one, Option.bind_eq_bind, Option.bind_eq_some,
        Option.some.injEq] at h
      obtain ⟨v, hv, h⟩ := h
      subst h
      exact core_preserved_refl c
  all_goals
    simp only [add_operand_one, Option.some.injEq] at h
  all_goals
    (subst h
     exact core_preserved_refl c)

theorem add_operands_core (al : List Tok) :
    ∀ c sp r, add_operands c sp al = some r → core_preserved c r.1 := by
  induction al with
  | nil =>
      intro c sp r h
      simp only [add_operands, Option.some.injEq] at h
      subst h
      exact core_preserved_refl c
  | cons t rest ih =>
      intro c sp r h
      simp only [add_operands, Option.bind_eq_bind, Option.bind_eq_some, Option.some.injEq] at h
      obtain ⟨⟨c1, sp1, vq⟩, h1, h⟩ := h
      simp only [Option.bind_eq_bind, Option.bind_eq_some, Option.some.injEq] at h
      obtain ⟨⟨c2, vs⟩, h2, h⟩ := h
      subst h
      exact core_preserved_trans (add_operand_one_core c sp t _ h1) (ih c1 sp1 (c2, vs) h2)


theorem acc_stackpop_no_ip {c : CPU} (hT : tables_ok c) {k : Bits} {m : String} {lst : List Tok}
    (hmem : (k, InstrEntry.sa m lst) ∈ c.instructionsDict) {dt : Tok} {name : String}
    (hdt : lst.get? 1 = some dt) (hup : dt.upperName = some name) : name ≠ "IP" := by
  intro hbad
  subst hbad
  refine hT.2 _ hmem ?_
  simp only [accumulator_stackpop_dest, hdt, Option.some_bind]
  exact hup

theorem determine_result_dest_spec (c : CPU) (sp : Option Nat) (al : List Tok)
    (r : CPU × Bool × Dest × Bool) (hT : tables_ok c)
    (h : determine_result_dest c sp al = some r) :
    core_preserved c r.1 ∧ ∀ n, r.2.2.1 = Dest.reg n → n ≠ "IP" := by
  simp only [determine_result_dest, Option.bind_eq_bind, Option.bind_eq_some] at h
  obtain ⟨entry, hentry, h⟩ := h
  have hmem := lookup_mem _ _ _ hentry
  split at h
  all_goals
    simp only [Option.bind_eq_bind, Option.bind_eq_some, Option.some_bind,
      Option.some.injEq] at h
  all_goals obtain ⟨rt, hrt, h⟩ := h
  all_goals split at h
  all_goals
    try simp only [Option.bind_eq_bind, Option.bind_eq_some, Option.some_bind,
      Option.some.injEq] at h
  all_goals try split at h
  all_goals
    try simp only [Option.bind_eq_bind, Option.bind_eq_some, Option.some_bind,
      Option.some.injEq] at h
  all_goals
    first
    | (subst h
       refine ⟨⟨rfl, rfl, rfl, rfl, rfl, rfl, rfl⟩, ?_⟩
       intro n hn
       simp at hn
       done)
    | (obtain ⟨x1, hx1, h⟩ := h
       subst h
       refine ⟨⟨rfl, rfl, rfl, rfl, rfl, rfl, rfl⟩, ?_⟩
       intro n hn
       simp at hn
       done)
    | (obtain ⟨x1, hx1, h⟩ := h
       subst h
       refine ⟨⟨rfl, rfl, rfl, rfl, rfl, rfl, rfl⟩, ?_⟩
       intro n hn
       injection hn with hn
       subst hn
       decide)
    | (obtain ⟨pr, hpr, h⟩ := h
       subst h
       refine ⟨pop_tos_core hpr, ?_⟩
       intro n hn
       simp at hn
       done)
    | (obtain ⟨x1, hx1, x2, hx2, h⟩ := h
       subst h
       refine ⟨⟨rfl, rfl, rfl, rfl, rfl, rfl, rfl⟩, ?_⟩
       intro n hn
       injection hn with hn
       subst hn
       exact hT.1 _ (lookup_mem _ _ _ hx2))
    | (obtain ⟨x1, hx1, x2, hx2, h⟩ := h
       subst h
       refine ⟨⟨rfl, rfl, rfl, rfl, rfl, rfl, rfl⟩, ?_⟩
       intro n hn
       simp at hn
       done)
    | (obtain ⟨x1, hx1, h⟩ := h
       cases hx1
       done)
    | (obtain ⟨lst0, hlst, dt, hdt, name, hup, chk, hchk, h⟩ := h
       subst h
       subst hlst
       refine ⟨⟨rfl, rfl, rfl, rfl, rfl, rfl, rfl⟩, ?_⟩
       intro n hn
       injection hn with hn
       subst hn
       exact acc_stackpop_no_ip hT hmem hdt hup)
    | (obtain ⟨a0, ha0, ln, hln, spv, hspv, pt, hpt, h⟩ := h
       subst h
       refine ⟨⟨rfl, rfl, rfl, rfl, rfl, rfl, rfl⟩, ?_⟩
       intro n hn
       simp at hn
       done)
    | skip
  all_goals
    first
    | (obtain ⟨spv9, hspv9, h⟩ := h
       done)
    | ((try obtain ⟨spv, hspv, h⟩ := h)
       split at h <;>
       (try simp only [Option.bind_eq_bind, Option.bind_eq_some, Option.some_bind,
          Option.some.injEq] at h) <;>
       (try first
        | (obtain ⟨name, hname, h⟩ := h
           subst h
           refine ⟨⟨rfl, rfl, rfl, rfl, rfl, rfl, rfl⟩, ?_⟩
           intro n hn
           first
           | (injection hn with hn
              subst hn
              exact hT.1 _ (lookup_mem _ _ _ hname))
           | (simp at hn
              done))
        | (obtain ⟨a0, ha0, ln, hln, spv2, hspv2, pt, hpt, h⟩ := h
           subst h
           refine ⟨⟨rfl, rfl, rfl, rfl, rfl, rfl, rfl⟩, ?_⟩
           intro n hn
           simp at hn
           done)
        | (subst h
           refine ⟨⟨rfl, rfl, rfl, rfl, rfl, rfl, rfl⟩, ?_⟩
           intro n hn
           simp at hn
           done)))

theorem write_result_core {c c' : CPU} {v : Bits} {mwa : Bool} {dest : Dest} {tp : Bool}
    (h : write_result c v mwa dest tp = some c')
    (hdest : ∀ n, dest = Dest.reg n → n ≠ "IP") : core_preserved c c' := by
  unfold write_result at h
  split at h
  · split at h
    · simp only [Option.bind_eq_bind, Option.bind_eq_some] at h
      obtain ⟨dm, hdm, h⟩ := h
      split at h
      · split at h
        · cases h
        · exact core_preserved_trans (setDataMem_core c dm) (writeRegData_core h (by decide))
      · simp only [Option.some.injEq] at h
        subst h
        exact setDataMem_core c dm
    · cases h
  · split at h
    · rename_i n
      exact writeRegObj_core h (hdest n rfl)
    · cases h

theorem exec_dispatch_advances (c : CPU) (entry : InstrEntry) (al : List Tok)
    (vals : List Bits) (mwa : Bool) (dest : Dest) (tosPush : Bool) (rt : Tok)
    (r : CPU × Bool) (h : exec_dispatch c entry al vals mwa dest tosPush rt = some r)
    (hcall : rt ≠ Tok.call) (hret : rt ≠ Tok.ret)
    (hjmp : rt = Tok.jmp → ∀ fr sj, getReg c "FR" = some fr →
      jmp_should_jump entry.mnem vals fr = some sj → sj = false)
    (hdest : ∀ n, dest = Dest.reg n → n ≠ "IP") :
    r.2 = true ∧ core_preserved c r.1 := by
  cases rt
  case call => exact absurd rfl hcall
  case ret => exact absurd rfl hret
  case jmp =>
      simp only [exec_dispatch, Option.bind_eq_bind, Option.bind_eq_some] at h
      obtain ⟨fr, hfr, sj, hsj, h⟩ := h
      have hs := hjmp rfl fr sj hfr hsj
      subst hs
      simp only [Bool.false_eq_true, if_false, Option.some.injEq] at h
      subst h
      exact ⟨rfl, core_preserved_refl c⟩
  case enter =>
      simp only [exec_dispatch, Option.bind_eq_bind, Option.bind_eq_some] at h
      obtain ⟨bp, hbp, cA, hcA, sp2, hsp2, cB, hcB, spv, hspv, v0, hv0, h⟩ := h
      split at h
      · cases h
      · simp only [Option.bind_eq_bind, Option.bind_eq_some, Option.some.injEq] at h
        obtain ⟨cC, hcC, h⟩ := h
        subst h
        refine ⟨rfl, ?_⟩
        exact core_preserved_trans (push_stack_core hcA)
          (core_preserved_trans (writeRegData_core hcB (by decide))
            (writeRegData_core hcC (by decide)))
  case leave =>
      simp only [exec_dispatch, Option.bind_eq_bind, Option.bind_eq_some,
        Option.some.injEq] at h
      obtain ⟨bp, hbp, cA, hcA, pr, hpr, cB, hcB, h⟩ := h
      subst h
      exact ⟨rfl, core_preserved_trans (writeRegData_core hcA (by decide))
        (core_preserved_trans (pop_stack_core hpr) (writeRegData_core hcB (by decide)))⟩
  case stackpush =>
      simp only [exec_dispatch, Option.bind_eq_bind, Option.bind_eq_some,
        Option.some.injEq] at h
      obtain ⟨v0, hv0, cA, hcA, h⟩ := h
      subst h
      exact ⟨rfl, push_stack_core hcA⟩
  case stackpop =>
      simp only [exec_dispatch, Option.bind_eq_bind, Option.bind_eq_some,
        Option.some.injEq] at h
      obtain ⟨pr, hpr, cA, hcA, h⟩ := h
      subst h
      exact ⟨rfl, core_preserved_trans (pop_stack_core hpr) (write_result_core hcA hdest)⟩
  case stackpopf =>
      simp only [exec_dispatch, Option.bind_eq_bind, Option.bind_eq_some,
        Option.some.injEq] at h
      obtain ⟨pr, hpr, cA, hcA, h⟩ := h
      subst h
      exact ⟨rfl, core_preserved_trans (pop_stack_core hpr) (write_result_core hcA hdest)⟩
  case out =>
      simp only [exec_dispatch] at h
      split at h
      · simp only [Option.bind_eq_bind, Option.bind_eq_some, Option.some.injEq] at h
        obtain ⟨sh, hsh, vl, hvl, h⟩ := h
        subst h
        exact ⟨rfl, ⟨rfl, rfl, rfl, rfl, rfl, rfl, rfl⟩⟩
      · cases h
  case inp =>
      simp only [exec_dispatch, Option.some.injEq] at h
      subst h
      exact ⟨rfl, ⟨rfl, rfl, rfl, rfl, rfl, rfl, rfl⟩⟩
  case swap =>
      simp only [exec_dispatch] at h
      split at h
      · simp only [Option.bind_eq_bind, Option.bind_eq_some] at h
        obtain ⟨v0, hv0, v1, hv1, dm, hdm, dm2, hdm2, h⟩ := h
        split at h
        · cases h
        · simp only [Option.bind_eq_bind, Option.bind_eq_some, Option.some.injEq] at h
          obtain ⟨cC, hcC, h⟩ := h
          subst h
          refine ⟨rfl, ?_⟩
          exact core_preserved_trans (setDataMem_core c dm)
            (core_preserved_trans (setDataMem_core _ dm2) (writeRegData_core hcC (by decide)))
      · cases h
  case simdstore =>
      simp only [exec_dispatch, Option.bind_eq_bind, Option.bind_eq_some] at h
      obtain ⟨r0, h0, r1, h1, r2, h2, r3, h3, h⟩ := h
      split at h
      · simp only [Option.bind_eq_bind, Option.bind_eq_some, Option.some.injEq] at h
        obtain ⟨dm, hdm, h⟩ := h
        subst h
        exact ⟨rfl, setDataMem_core c dm⟩
      · cases h
  case simd =>
      simp only [exec_dispatch, Option.bind_eq_bind, Option.bind_eq_some] at h
      obtain ⟨fn, hfn, v0, hv0, vl, hvl, fr, hfr, h⟩ := h
      split at h
      · simp only [Option.bind_eq_bind, Option.bind_eq_some, Option.some.injEq] at h
        obtain ⟨dm, hdm, h⟩ := h
        subst h
        refine ⟨rfl, ?_⟩
        exact core_preserved_trans (setRegUnchecked_core c "FR" _ (by decide))
          (setDataMem_core _ dm)
      · cases h
  case simdload =>
      simp only [exec_dispatch, Option.bind_eq_bind, Option.bind_eq_some,
        Option.some.injEq] at h
      obtain ⟨v0, hv0, cA, hA, cB, hB, cC, hC, cD, hD, h⟩ := h
      subst h
      refine ⟨rfl, ?_⟩
      exact core_preserved_trans (writeRegData_core hA (by decide))
        (core_preserved_trans (writeRegData_core hB (by decide))
          (core_preserved_trans (writeRegData_core hC (by decide))
            (writeRegData_core hD (by decide))))
  case simdreg =>
      simp only [exec_dispatch, Option.some.injEq] at h
      subst h
      exact ⟨rfl, core_preserved_refl c⟩
  all_goals
    (simp only [exec_dispatch, Option.bind_eq_bind, Option.bind_eq_some,
       Option.some.injEq] at h
     obtain ⟨fn, hfn, fr, hfr, cB, hcB, h⟩ := h
     subst h
     exact ⟨rfl, core_preserved_trans (setRegUnchecked_core c "FR" _ (by decide))
       (write_result_core hcB hdest)⟩)

theorem execute_advances (c : CPU) (r : CPU × Bool) (hT : tables_ok c)
    (h : execute c = some r)
    (hc : curr_res_type c ≠ some Tok.call) (hr : curr_res_type c ≠ some Tok.ret)
    (hj : curr_res_type c = some Tok.jmp → jmp_taken c ≠ some true) :
    r.2 = true ∧ core_preserved c r.1 := by
  simp only [execute, Option.bind_eq_bind, Option.bind_eq_some] at h
  obtain ⟨entry, hentry, h⟩ := h
  obtain ⟨al, hal, h⟩ := h
  obtain ⟨⟨c1, vals⟩, h1, h⟩ := h
  simp only [Option.bind_eq_bind, Option.bind_eq_some] at h
  obtain ⟨⟨c2, mwa, dest, tp⟩, h2, h⟩ := h
  simp only [Option.bind_eq_bind, Option.bind_eq_some] at h
  obtain ⟨rt, hrt, hd⟩ := h
  have hp1 := add_operands_core al c (determine_start_point c) (c1, vals) h1
  have hT1 := tables_ok_core hp1 hT
  have hspec := determine_result_dest_spec c1 (determine_start_point c) al
    (c2, mwa, dest, tp) hT1 h2
  have hp2 : core_preserved c1 c2 := hspec.1
  have hp12 := core_preserved_trans hp1 hp2
  have hisa2 : c2.isa = c.isa := hp12.2.2.2.1
  have hcurr : curr_res_type c = some rt := by
    unfold curr_res_type
    rw [hentry]
    simp only [Option.some_bind]
    rw [← hisa2]
    exact hrt
  have hdisp := exec_dispatch_advances c2 entry al vals mwa dest tp rt r hd
    (by intro hbad; subst hbad; exact hc hcurr)
    (by intro hbad; subst hbad; exact hr hcurr)
    (by
      intro hrtj fr sj hfr hsj
      subst hrtj
      by_cases hsjt : sj = true
      · exfalso
        subst hsjt
        apply hj hcurr
        unfold jmp_taken
        simp only [Option.bind_eq_bind, hentry, hal, h1, h2, hfr, Option.some_bind]
        exact hsj
      · exact Bool.eq_false_iff.mpr hsjt)
    (hspec.2)
  exact ⟨hdisp.1, core_preserved_trans hp12 hdisp.2⟩

theorem execute_cycle_advances (c c' : CPU) (hT : tables_ok c) (h : execute_cycle c = some c')
    (hc : curr_res_type c ≠ some Tok.call) (hr : curr_res_type c ≠ some Tok.ret)
    (hj : curr_res_type c = some Tok.jmp → jmp_taken c ≠ some true) :
    ∃ ip, getReg c "IP" = some ip ∧
      getReg c' "IP" = some (ip + instrBits c.isa / byteBits c.isa + c.additionalJump) ∧
      c'.programPointer = c.programPointer + 1 := by
  have htail : ∀ c1 : CPU, core_preserved c c1 →
      (Option.bind (getReg c1 "IP") fun ip =>
        Option.bind (writeRegData c1 "IP" (natBin (ip + instrBits c1.isa / byteBits c1.isa +
          c1.additionalJump))) fun c2 =>
        some { c2 with programPointer := c2.programPointer + 1 }) = some c' →
      ∃ ip, getReg c "IP" = some ip ∧
        getReg c' "IP" = some (ip + instrBits c.isa / byteBits c.isa + c.additionalJump) ∧
        c'.programPointer = c.programPointer + 1 := by
    intro c1 hcp ht
    rw [Option.bind_eq_some] at ht
    obtain ⟨ip1, hip1, ht⟩ := ht
    rw [Option.bind_eq_some] at ht
    obtain ⟨c2, hc2, ht⟩ := ht
    simp only [Option.some.injEq] at ht
    subst ht
    have hipc : getReg c "IP" = some ip1 := by
      rw [← getReg_core hcp]
      exact hip1
    have haj : c1.additionalJump = c.additionalJump := hcp.2.2.1
    have hisa : c1.isa = c.isa := hcp.2.2.2.1
    refine ⟨ip1, hipc, ?_, ?_⟩
    · unfold writeRegData at hc2
      split at hc2
      · split at hc2
        · simp only [Option.some.injEq] at hc2
          subst hc2
          rename_i hmemb _
          show (if "IP" ∈ c1.regNames then
              some (if "IP" = "IP" then
                bitsToNat (natBin (ip1 + instrBits c1.isa / byteBits c1.isa + c1.additionalJump))
              else c1.regs "IP")
            else Option.none)
            = some (ip1 + instrBits c.isa / byteBits c.isa + c.additionalJump)
          rw [if_pos hmemb, if_pos rfl, natBin_sound, haj, hisa]
        · cases hc2
      · cases hc2
    · unfold writeRegData at hc2
      split at hc2
      · split at hc2
        · simp only [Option.some.injEq] at hc2
          subst hc2
          show c1.programPointer + 1 = c.programPointer + 1
          rw [hcp.2.2.2.2.1]
        · cases hc2
      · cases hc2
  simp only [execute_cycle, Option.bind_eq_bind, Option.bind_eq_some] at h
  obtain ⟨entry, hentry, h⟩ := h
  split at h
  · simp only [Option.some_bind] at h
    exact htail c (core_preserved_refl c) h
  · rw [Option.bind_eq_some] at h
    obtain ⟨⟨c1, g⟩, hstep, h⟩ := h
    have hadv := execute_advances c (c1, g) hT hstep hc hr hj
    have hg : g = true := hadv.1
    subst hg
    exact htail c1 hadv.2 h

theorem read_after_write {m m' : Mem} {a : Nat} {v : Bits}
    (h : write_data m a v = some m') :
    read_data m' a (a + v.length) = some v := by
  rw [write_data] at h
  by_cases hle : a + v.length ≤ m.sizeBytes * 8
  · rw [if_pos hle] at h
    injection h with h
    subst h
    rw [read_data]
    rw [if_pos ⟨Nat.le_add_right a v.length, hle⟩]
    congr 1
    rw [Nat.add_sub_cancel_left]
    have hmap : ∀ i ∈ List.range v.length,
        (if a ≤ a + i ∧ a + i < a + v.length then v.getD (a + i - a) false else m.bit (a + i))
          = v.getD i false := by
      intro i hi
      rw [List.mem_range] at hi
      rw [if_pos ⟨Nat.le_add_right a i, by omega⟩]
      congr 1
      omega
    rw [List.map_congr_left hmap, map_range_getD]
  · rw [if_neg hle] at h
    cases h

theorem setDataMem_dataMemory (c : CPU) (m : Mem) : (setDataMem c m).dataMemory = m := by
  rw [setDataMem]; split <;> rfl

theorem setDataMem_regNames (c : CPU) (m : Mem) : (setDataMem c m).regNames = c.regNames := by
  rw [setDataMem]; split <;> rfl

theorem setDataMem_regs (c : CPU) (m : Mem) : (setDataMem c m).regs = c.regs := by
  rw [setDataMem]; split <;> rfl

/-- C4: for every 16-bit value `v` and every CPU state whose `SP` register holds a
stack pointer at least 2 with the stack inside data memory, pushing `v` on the
memory stack and then popping the memory stack returns `SP` to its pre-push value
and yields back exactly `v`. -/
theorem c4_push_pop_roundtrip (c : CPU) (v : Bits) (sp : Nat)
    (hsp : getReg c "SP" = some sp) (h2 : 2 ≤ sp) (hsz : sp ≤ c.dataMemory.sizeBytes)
    (hlt : sp < 2 ^ 16) (hv : v.length = 16) :
    ∃ c1 r, push_stack c v = some c1 ∧ pop_stack c1 = some r ∧
      r.2 = v ∧ getReg r.1 "SP" = some sp := by
  have hm : "SP" ∈ c.regNames := by
    rw [getReg] at hsp
    by_cases h : "SP" ∈ c.regNames
    · exact h
    · rw [if_neg h] at hsp; cases hsp
  have ha0 : (0 : Int) ≤ ((sp * 8 : Nat) : Int) - 16 := by omega
  have htn : (((sp * 8 : Nat) : Int) - 16).toNat = sp * 8 - 16 := by omega
  have hwcond : sp * 8 - 16 + v.length ≤ c.dataMemory.sizeBytes * 8 := by rw [hv]; omega
  obtain ⟨dm, hw⟩ : ∃ dm, write_data c.dataMemory (sp * 8 - 16) v = some dm := by
    rw [write_data, if_pos hwcond]; exact ⟨_, rfl⟩
  have hpush : push_stack c v = some (setRegUnchecked (setDataMem c dm) "SP" (sp - 2)) := by
    rw [push_stack]
    simp only [Option.bind_eq_bind, hsp, Option.some_bind]
    rw [write_dataI, if_pos ha0, htn, hw]
    rfl
  have hnames1 : (setRegUnchecked (setDataMem c dm) "SP" (sp - 2)).regNames = c.regNames := by
    rw [setRegUnchecked, setDataMem_regNames]
  have hreg1 : getReg (setRegUnchecked (setDataMem c dm) "SP" (sp - 2)) "SP" = some (sp - 2) := by
    rw [getReg, if_pos (hnames1 ▸ hm)]
    rw [setRegUnchecked]
    simp
  have hlen : (natBin sp).length ≤ 16 := natBin_length_le sp 16 (by norm_num) hlt
  have hmem1 : (setRegUnchecked (setRegUnchecked (setDataMem c dm) "SP" (sp - 2)) "SP"
      (bitsToNat (natBin sp))).dataMemory = dm := by
    rw [setRegUnchecked, setRegUnchecked, setDataMem_dataMemory]
  have hpop : pop_stack (setRegUnchecked (setDataMem c dm) "SP" (sp - 2)) =
      some (setRegUnchecked (setRegUnchecked (setDataMem c dm) "SP" (sp - 2)) "SP"
        (bitsToNat (natBin sp)), v) := by
    rw [pop_stack]
    simp only [Option.bind_eq_bind, hreg1, Option.some_bind]
    have h22 : sp - 2 + 2 = sp := by omega
    rw [h22]
    rw [writeRegData, if_pos (hnames1 ▸ hm), if_pos hlen]
    simp only [Option.some_bind]
    rw [hmem1]
    have hlo : (sp - 2) * 8 = sp * 8 - 16 := by omega
    have hhi : sp * 8 - 16 + 16 = sp * 8 - 16 + v.length := by rw [hv]
    rw [hlo, hhi, read_after_write hw]
    rfl
  refine ⟨_, _, hpush, hpop, rfl, ?_⟩
  have hnames2 : (setRegUnchecked (setRegUnchecked (setDataMem c dm) "SP" (sp - 2)) "SP"
      (bitsToNat (natBin sp))).regNames = c.regNames := by
    rw [setRegUnchecked, setRegUnchecked, setDataMem_regNames]
  rw [getReg, if_pos (hnames2 ▸ hm)]
  rw [setRegUnchecked]
  simp [natBin_sound]

theorem translate_lines_length (ctx : AsmCtx) :
    ∀ (l : List Str) (out : List Bits), translate_lines ctx l = Except.ok out →
      out.length = l.length := by
  intro l
  induction l with
  | nil =>
      intro out h
      simp only [translate_lines] at h
      injection h with h
      subst h
      rfl
  | cons a rest ih =>
      intro out h
      simp only [translate_lines] at h
      cases hta : translate_line ctx a with
      | error e => rw [hta] at h; exact Except.noConfusion h
      | ok b =>
          rw [hta] at h
          cases htr : translate_lines ctx rest with
          | error e => rw [htr] at h; exact Except.noConfusion h
          | ok bs =>
              rw [htr] at h
              injection h with h
              subst h
              simp [ih bs htr]

theorem fix_ok_of_commas :
    ∀ ops : List Str, (∀ o ∈ ops.dropLast, o.getLast? = some ',') →
      fix_operand_commas ops =
        Except.ok (ops.dropLast.map (fun o => o.dropLast) ++ ops.drop (ops.length - 1)) := by
  intro ops
  induction ops with
  | nil => intro _; rfl
  | cons o rest ih =>
      intro hcom
      cases rest with
      | nil => rfl
      | cons o2 rest2 =>
          have ho : o.getLast? = some ',' := hcom o (List.mem_cons_self o _)
          simp only [fix_operand_commas]
          rw [if_pos ho]
          rw [ih (fun x hx => hcom x (List.mem_cons_of_mem o hx))]
          simp only [List.dropLast, List.map, List.length, List.drop_succ_cons]
          rfl

theorem fix_missing :
    ∀ ops : List Str, (∃ o ∈ ops.dropLast, o.getLast? ≠ some ',') →
      fix_operand_commas ops = Except.error (TErr.asm AsmErr.missingComma) := by
  intro ops
  induction ops with
  | nil => rintro ⟨x, hx, _⟩; simp at hx
  | cons o rest ih =>
      rintro ⟨x, hx, hxc⟩
      cases rest with
      | nil => simp [List.dropLast] at hx
      | cons o2 rest2 =>
          simp only [fix_operand_commas]
          by_cases ho : o.getLast? = some ','
          · rw [if_pos ho]
            have hx' : x ∈ o :: (o2 :: rest2).dropLast := hx
            have hrec : ∃ y ∈ (o2 :: rest2).dropLast, y.getLast? ≠ some ',' := by
              rcases List.mem_cons.mp hx' with hxo | hxr
              · exact absurd (hxo ▸ hxc) (fun hn => hn ho)
              · exact ⟨x, hxr, hxc⟩
            rw [ih hrec]
          · rw [if_neg ho]

theorem fetch_registers_preserves {c0 : CPU} {rr srl : Nat} {st : CPU × Nat}
    (h : fetch_registers c0 rr srl = some st) :
    st.1.regs = c0.regs ∧ st.1.regNames = c0.regNames ∧ st.1.dataMemory = c0.dataMemory ∧
    st.1.programMemory = c0.programMemory ∧ st.1.programPointer = c0.programPointer ∧
    st.1.firstInstruction = c0.firstInstruction := by
  rw [fetch_registers] at h
  split at h
  · simp only [Option.bind_eq_bind, Option.bind_eq_some, Option.some.injEq] at h
    obtain ⟨bits, hbits, lrr, hlrr, h⟩ := h
    subst h
    exact ⟨rfl, rfl, rfl, rfl, rfl, rfl⟩
  · injection h with h
    subst h
    exact ⟨rfl, rfl, rfl, rfl, rfl, rfl⟩

theorem attach_imms_preserves (c1 : CPU) (k : Nat) (imms : List Bits) :
    (attach_imms c1 k imms).regs = c1.regs ∧ (attach_imms c1 k imms).regNames = c1.regNames ∧
    (attach_imms c1 k imms).dataMemory = c1.dataMemory ∧
    (attach_imms c1 k imms).programMemory = c1.programMemory ∧
    (attach_imms c1 k imms).programPointer = c1.programPointer ∧
    (attach_imms c1 k imms).firstInstruction = c1.firstInstruction := by
  unfold attach_imms
  split <;> exact ⟨rfl, rfl, rfl, rfl, rfl, rfl⟩

theorem read_instruction_preserves {c c' : CPU} (h : read_instruction c = some c') :
    c'.regs = c.regs ∧ c'.regNames = c.regNames ∧ c'.dataMemory = c.dataMemory ∧
    c'.programMemory = c.programMemory ∧ c'.programPointer = c.programPointer ∧
    c'.firstInstruction = c.firstInstruction := by
  simp only [read_instruction, Option.bind_eq_bind, Option.bind_eq_some,
    Option.some.injEq] at h
  obtain ⟨ip, hip, instr, hinstr, counters, hcounters, step1, hstep1, imms, himms, h⟩ := h
  subst h
  have hfr := fetch_registers_preserves hstep1
  have hai := attach_imms_preserves step1.1 counters.2 imms
  exact ⟨hai.1.trans hfr.1, (hai.2.1.trans hfr.2.1 :), (hai.2.2.1.trans hfr.2.2.1 :),
    (hai.2.2.2.1.trans hfr.2.2.2.1 :), (hai.2.2.2.2.1.trans hfr.2.2.2.2.1 :),
    (hai.2.2.2.2.2.trans hfr.2.2.2.2.2 :)⟩

/-- Claim C2: for every executed cycle whose instruction is not a call, ret, or taken
jump, the instruction pointer after the cycle equals its value before the cycle plus
(instruction-bits divided by byte-bits) plus `additional_jump`, and the program
pointer advances by one. -/
theorem c2_ip_auto_advance (c c' : CPU) (hT : tables_ok c)
    (h : execute_cycle c = some c')
    (hc : curr_res_type c ≠ some Tok.call) (hr : curr_res_type c ≠ some Tok.ret)
    (hj : curr_res_type c = some Tok.jmp → jmp_taken c ≠ some true) :
    ∃ ip, getReg c "IP" = some ip ∧
      getReg c' "IP" = some (ip + instrBits c.isa / byteBits c.isa + c.additionalJump) ∧
      c'.programPointer = c.programPointer + 1 :=
  execute_cycle_advances c c' hT h hc hr hj

/-- A concrete executed `nop` cycle advancing `IP` from 516 by two bytes. -/
theorem c2_witness :
    ∃ ip, getReg c2cpu "IP" = some ip ∧
      getReg c2cpu' "IP" =
        some (ip + instrBits c2cpu.isa / byteBits c2cpu.isa + c2cpu.additionalJump) ∧
      c2cpu'.programPointer = c2cpu.programPointer + 1 :=
  c2_ip_auto_advance c2cpu c2cpu' ⟨by decide, by decide⟩ rfl (by decide) (by decide)
    (by intro hcj; exact absurd hcj (by decide))

/-- A fetched word with all-zero opcode bits but a nonzero payload is not treated as
halt: the step executes it and moves both the program pointer and `IP`. -/
theorem c3_counterexample :
    c3cpu.instruction.take (opcodeBits c3cpu.isa) =
      List.replicate (opcodeBits c3cpu.isa) false ∧
    c3cpu.instruction ≠ List.replicate (instrBits c3cpu.isa) false ∧
    web_next_instruction c3cpu = some c3cpu' ∧
    c3cpu'.programPointer = c3cpu.programPointer + 1 ∧
    getReg c3cpu "IP" = some 516 ∧ getReg c3cpu' "IP" = some 518 :=
  ⟨by decide, by decide, rfl, by decide, by decide, by decide⟩

/-- Claim C3 (amended): halting is keyed on the whole fetched instruction word, not
on the opcode bits alone: whenever the fetched instruction word is all-zero, every
number of subsequent `step` calls returns the state unchanged. -/
theorem c3_halt_word_terminal (c : CPU)
    (h : c.instruction = List.replicate (instrBits c.isa) false) :
    ∀ k, stepN k c = some c := by
  intro k
  induction k with
  | zero => rfl
  | succ k ih =>
      simp only [stepN]
      rw [web_next_instruction, if_pos h]
      exact ih

/-- A halted machine is unchanged by three further steps. -/
theorem c3_witness : stepN 3 c3wcpu = some c3wcpu :=
  c3_halt_word_terminal c3wcpu (by decide) 3

/-- Claim C7 (amended): on success the assembler emits exactly one output line per
input line; but a blank input line is not mapped to a blank output line — it fails
the mnemonic lookup instead (see the counterexample). -/
theorem c7_line_count (ctx : AsmCtx) (text : Str) (out : List Bits)
    (h : asm_translate ctx text = Except.ok out) :
    out.length = (split_char '\n' text).length :=
  translate_lines_length ctx (split_char '\n' text) out h

/-- A blank line makes assembly fail with the unknown-mnemonic error, while the same
program without the blank line assembles. -/
theorem c7_counterexample :
    asm_translate actx c7text = Except.error (TErr.asm AsmErr.unknownMnemonic) ∧
    asm_translate actx c7good =
      Except.ok [opcNop ++ List.replicate 10 false, opcNop ++ List.replicate 10 false] :=
  ⟨rfl, rfl⟩

/-- The two-line program assembles to two output lines. -/
theorem c7_witness :
    [opcNop ++ List.replicate 10 false, opcNop ++ List.replicate 10 false].length =
      (split_char '\n' c7good).length :=
  c7_line_count actx c7good _ rfl

/-- Claim C8: for a line with at least two operands, the comma pass fails with
the missing-comma error exactly when some operand other than the last does not end
with a comma; when every non-final operand ends with a comma, the pass strips those
trailing commas and keeps the last operand, handing the result on to validation and
encoding. -/
theorem c8_comma_discipline (ops : List Str) (h2 : 2 ≤ ops.length) :
    (fix_operand_commas ops = Except.error (TErr.asm AsmErr.missingComma) ↔
      ¬(∀ o ∈ ops.dropLast, o.getLast? = some ',')) ∧
    ((∀ o ∈ ops.dropLast, o.getLast? = some ',') →
      fix_operand_commas ops =
        Except.ok (ops.dropLast.map (fun o => o.dropLast) ++ ops.drop (ops.length - 1))) := by
  refine ⟨⟨?_, ?_⟩, fix_ok_of_commas ops⟩
  · intro he hall
    rw [fix_ok_of_commas ops hall] at he
    exact Except.noConfusion he
  · intro hnall
    push_neg at hnall
    obtain ⟨o, ho, hoc⟩ := hnall
    exact fix_missing ops ⟨o, ho, hoc⟩

/-- The comma pass on the two-operand list `["a,", "b"]`. -/
theorem c8_witness :
    (fix_operand_commas [['a', ','], ['b']] =
        Except.error (TErr.asm AsmErr.missingComma) ↔
      ¬(∀ o ∈ ([['a', ','], ['b']] : List Str).dropLast, o.getLast? = some ',')) ∧
    ((∀ o ∈ ([['a', ','], ['b']] : List Str).dropLast, o.getLast? = some ',') →
      fix_operand_commas [['a', ','], ['b']] =
        Except.ok ((([['a', ','], ['b']] : List Str).dropLast.map (fun o => o.dropLast)) ++
          ([['a', ','], ['b']] : List Str).drop (([['a', ','], ['b']] : List Str).length - 1))) :=
  c8_comma_discipline [['a', ','], ['b']] (by decide)

/-- Claim C9 (amended): `input_finish` performs no pending-input check: whatever
`is_input_active` holds, it pads the value to 16 bits, writes it to the saved
register destination, clears the flag, and leaves all other registers, the data
memory and the program pointer unchanged. -/
theorem c9_input_finish_writes (c : CPU) (n : String) (char : Bits)
    (hs : c.inputSaved = some (false, Dest.reg n, false)) (hlen : char.length ≤ 16) :
    ∃ c', input_finish c char = some c' ∧ c'.isInputActive = false ∧
      c'.regs n = bitsToNat char ∧ (∀ m, m ≠ n → c'.regs m = c.regs m) ∧
      c'.dataMemory = c.dataMemory ∧ c'.programPointer = c.programPointer := by
  have hrl : (rjust 16 false char).length ≤ 16 := by
    rw [length_rjust]; omega
  have hwr : ∀ c0 : CPU, write_result c0 (rjust 16 false char) false (Dest.reg n) false =
      some (setRegUnchecked c0 n (bitsToNat (rjust 16 false char))) := by
    intro c0
    show writeRegObj c0 n (rjust 16 false char) = _
    rw [writeRegObj, if_pos hrl]
  refine ⟨setRegUnchecked { c with isInputActive := false } n
      (bitsToNat (rjust 16 false char)), ?_, rfl, ?_, ?_, rfl, rfl⟩
  · rw [input_finish]
    simp only [Option.bind_eq_bind]
    have hb : ∀ o : Option (Bool × Dest × Bool), o = some (false, Dest.reg n, false) →
        (o.bind fun saved => write_result { c with isInputActive := false }
          (rjust 16 false char) saved.1 saved.2.1 saved.2.2) =
        some (setRegUnchecked { c with isInputActive := false } n
          (bitsToNat (rjust 16 false char))) := by
      rintro o rfl
      rw [Option.some_bind]
      exact hwr _
    exact hb _ hs
  · show (if n = n then bitsToNat (rjust 16 false char) else _) = bitsToNat char
    rw [if_pos rfl, bitsToNat_rjust_false]
  · intro m hm
    show (if m = n then _ else c.regs m) = c.regs m
    rw [if_neg hm]

/-- With no pending input and a saved register destination, `input_finish` still
succeeds and overwrites the destination register. -/
theorem c9_counterexample :
    c9cpu.isInputActive = false ∧ getReg c9cpu "R00" = some 0 ∧
    input_finish c9cpu [true] = some c9cpu' ∧ getReg c9cpu' "R00" = some 1 :=
  ⟨rfl, by decide, rfl, by decide⟩

/-- `input_finish` on the concrete no-pending-input state. -/
theorem c9_witness :
    ∃ c', input_finish c9cpu [true] = some c' ∧ c'.isInputActive = false ∧
      c'.regs "R00" = bitsToNat [true] ∧ (∀ m, m ≠ "R00" → c'.regs m = c9cpu.regs m) ∧
      c'.dataMemory = c9cpu.dataMemory ∧ c'.programPointer = c9cpu.programPointer :=
  c9_input_finish_writes c9cpu "R00" [true] rfl (by decide)

/-- Claim C10: for a freshly constructed CPU (first-instruction flag set, instruction
buffer not an all-zero word, no pending input) the first `step` only fetches: it is
exactly `read_instruction` on the state with the flag cleared, which changes no
register, no memory, and not the program pointer; on every later non-halted,
non-waiting state a `step` first executes the previously fetched instruction and
then fetches the next one. -/
theorem c10_first_step_fetch_only (c : CPU)
    (hfi : c.firstInstruction = true)
    (hh : c.instruction ≠ List.replicate (instrBits c.isa) false)
    (hin : c.isInputActive = false) :
    web_next_instruction c = read_instruction { c with firstInstruction := false } ∧
    (∀ c', read_instruction { c with firstInstruction := false } = some c' →
      c'.regs = c.regs ∧ c'.regNames = c.regNames ∧ c'.dataMemory = c.dataMemory ∧
      c'.programMemory = c.programMemory ∧ c'.programPointer = c.programPointer ∧
      c'.firstInstruction = false) ∧
    (∀ d : CPU, d.instruction ≠ List.replicate (instrBits d.isa) false →
      d.isInputActive = false → d.firstInstruction = false →
      web_next_instruction d =
        (execute_cycle d).bind fun d1 => (update_devices d1).bind read_instruction) := by
  refine ⟨?_, ?_, ?_⟩
  · rw [web_next_instruction, if_neg hh, if_neg (by simp [hin]), if_pos hfi]
  · intro c' h
    have hp := read_instruction_preserves h
    exact ⟨hp.1, hp.2.1, hp.2.2.1, hp.2.2.2.1, hp.2.2.2.2.1, hp.2.2.2.2.2⟩
  · intro d hd1 hd2 hd3
    rw [web_next_instruction, if_neg hd1, if_neg (by simp [hd2]), if_neg (by simp [hd3])]
    rfl

/-- The first step of a fresh CPU on the concrete two-`nop` program. -/
theorem c10_witness :
    web_next_instruction c10cpu = read_instruction { c10cpu with firstInstruction := false } ∧
    (∀ c', read_instruction { c10cpu with firstInstruction := false } = some c' →
      c'.regs = c10cpu.regs ∧ c'.regNames = c10cpu.regNames ∧
      c'.dataMemory = c10cpu.dataMemory ∧ c'.programMemory = c10cpu.programMemory ∧
      c'.programPointer = c10cpu.programPointer ∧ c'.firstInstruction = false) ∧
    (∀ d : CPU, d.instruction ≠ List.replicate (instrBits d.isa) false →
      d.isInputActive = false → d.firstInstruction = false →
      web_next_instruction d =
        (execute_cycle d).bind fun d1 => (update_devices d1).bind read_instruction) :=
  c10_first_step_fetch_only c10cpu rfl (by decide) rfl

/-- Claim C1: code bug — after a valid backward `call` (signed delta −2) immediately
followed by `ret`, the program pointer does advance to the instruction after the
call, but `IP` lands at 506 instead of the byte address 518 of that instruction:
the `ret` branch subtracts the byte distance from `IP` even when the return point
lies forward of the current program pointer. -/
theorem c1_call_ret_backward_bug :
    curr_res_type c1cpu = some Tok.call ∧
    web_next_instruction c1cpu = some c1cpu' ∧
    curr_res_type c1cpu' = some Tok.ret ∧
    web_next_instruction c1cpu' = some c1cpu'' ∧
    c1cpu.programPointer = 2 ∧ c1cpu''.programPointer = 3 ∧
    512 + (c1cpu.instrSizeList.take 3).sum = 518 ∧
    getReg c1cpu'' "IP" = some 506 ∧ getReg c1cpu'' "IP" ≠ some 518 :=
  ⟨by decide, rfl, by decide, rfl, by decide, by decide, by decide, by decide, by decide⟩

/-- A concrete push/pop round trip of the all-ones word at `SP = 1024`. -/
theorem c4_witness :
    ∃ c1 r, push_stack c4cpu (List.replicate 16 true) = some c1 ∧ pop_stack c1 = some r ∧
      r.2 = List.replicate 16 true ∧ getReg r.1 "SP" = some 1024 :=
  c4_push_pop_roundtrip c4cpu (List.replicate 16 true) 1024 (by decide) (by decide)
    (by decide) (by decide) (by decide)

/-- Claim C5: the conditional-jump predicates evaluate against the flag register
exactly per the table (`SF` is flag bit 0, `OF` bit 1, `ZF` bit 2; `jc` compares its
operand to the all-ones word), and when the predicate fails the cycle auto-advances
`IP` and the program pointer like any non-branching instruction. -/
theorem c5_cond_jump_predicates (vals : List Bits) (v : Bits) (fr : Nat)
    (hv : vals.head? = some v) :
    (jmp_should_jump "jmp" vals fr = some true ∧
     jmp_should_jump "jc" vals fr = some (decide (v = List.replicate 16 true)) ∧
     jmp_should_jump "je" vals fr = some (fr.testBit 2) ∧
     jmp_should_jump "jne" vals fr = some (!fr.testBit 2) ∧
     jmp_should_jump "jg" vals fr = some ((fr.testBit 0 == fr.testBit 1) && !fr.testBit 2) ∧
     jmp_should_jump "jge" vals fr = some (fr.testBit 0 == fr.testBit 1) ∧
     jmp_should_jump "jl" vals fr = some (fr.testBit 0 != fr.testBit 1) ∧
     jmp_should_jump "jle" vals fr =
       some ((fr.testBit 0 != fr.testBit 1) || fr.testBit 2)) ∧
    (∀ c c' : CPU, tables_ok c → curr_res_type c = some Tok.jmp →
      jmp_taken c = some false → execute_cycle c = some c' →
      ∃ ip, getReg c "IP" = some ip ∧
        getReg c' "IP" = some (ip + instrBits c.isa / byteBits c.isa + c.additionalJump) ∧
        c'.programPointer = c.programPointer + 1) := by
  constructor
  · refine ⟨?_, ?_, ?_, ?_, ?_, ?_, ?_, ?_⟩ <;> simp [jmp_should_jump, hv]
  · intro c c' hT hcurr htk hcyc
    refine execute_cycle_advances c c' hT hcyc ?_ ?_ ?_
    · rw [hcurr]; decide
    · rw [hcurr]; decide
    · intro _ hcontra
      rw [htk] at hcontra
      exact absurd (Option.some.inj hcontra) (by decide)

/-- The predicate table and fail-advance behaviour at the all-ones operand and
flag value 3. -/
theorem c5_witness :
    (jmp_should_jump "jmp" [List.replicate 16 true] 3 = some true ∧
     jmp_should_jump "jc" [List.replicate 16 true] 3 =
       some (decide (List.replicate 16 true = List.replicate 16 true)) ∧
     jmp_should_jump "je" [List.replicate 16 true] 3 = some (Nat.testBit 3 2) ∧
     jmp_should_jump "jne" [List.replicate 16 true] 3 = some (!Nat.testBit 3 2) ∧
     jmp_should_jump "jg" [List.replicate 16 true] 3 =
       some ((Nat.testBit 3 0 == Nat.testBit 3 1) && !Nat.testBit 3 2) ∧
     jmp_should_jump "jge" [List.replicate 16 true] 3 =
       some (Nat.testBit 3 0 == Nat.testBit 3 1) ∧
     jmp_should_jump "jl" [List.replicate 16 true] 3 =
       some (Nat.testBit 3 0 != Nat.testBit 3 1) ∧
     jmp_should_jump "jle" [List.replicate 16 true] 3 =
       some ((Nat.testBit 3 0 != Nat.testBit 3 1) || Nat.testBit 3 2)) ∧
    (∀ c c' : CPU, tables_ok c → curr_res_type c = some Tok.jmp →
      jmp_taken c = some false → execute_cycle c = some c' →
      ∃ ip, getReg c "IP" = some ip ∧
        getReg c' "IP" = some (ip + instrBits c.isa / byteBits c.isa + c.additionalJump) ∧
        c'.programPointer = c.programPointer + 1) :=
  c5_cond_jump_predicates [List.replicate 16 true] (List.replicate 16 true) 3 rfl

/-- Claim C6: an `immN` operand with a parsed decimal value `v` encodes exactly when
`−2^(N−1) < v < 2^(N−1)` (strict on both sides), in particular both `−2^(N−1)` and
`+2^(N−1)` draw the immediate-out-of-range error, and an accepted value is emitted
as its `N`-bit two's-complement image. -/
theorem c6_immediate_range (names : List (Str × Bits)) (line : Bits) (s : Str)
    (v : Int) (N : Nat) (hN : 1 ≤ N) (hs : py_int s = some v) :
    (encode_operand_one names line ('$' :: s) (Tok.imm (some N)) =
      if -(2 ^ (N - 1) : Int) < v ∧ v < 2 ^ (N - 1) then
        Except.ok (line ++ rjust N false (natBin (twos_complement v N).toNat))
      else Except.error (TErr.asm AsmErr.immediateOutOfRange)) ∧
    ((v = -(2 ^ (N - 1)) ∨ v = 2 ^ (N - 1)) →
      encode_operand_one names line ('$' :: s) (Tok.imm (some N)) =
        Except.error (TErr.asm AsmErr.immediateOutOfRange)) ∧
    (-(2 ^ (N - 1) : Int) < v ∧ v < 2 ^ (N - 1) →
      ∃ body, encode_operand_one names line ('$' :: s) (Tok.imm (some N)) =
          Except.ok (line ++ body) ∧ body.length = N ∧
        (bitsToNat body : Int) % 2 ^ N = v % 2 ^ N) := by
  have hvalid : valid_type names ('$' :: s) (Tok.imm (some N)) = true := by
    simp [valid_type, is_number, hs]
  have heval : encode_operand_one names line ('$' :: s) (Tok.imm (some N)) =
      if ¬(-(2 ^ (N - 1) : Int) < v ∧ v < 2 ^ (N - 1)) then
        Except.error (TErr.asm AsmErr.immediateOutOfRange)
      else Except.ok (line ++ rjust N false (natBin (twos_complement v N).toNat)) := by
    simp only [encode_operand_one, hvalid, if_true, List.drop_succ_cons, List.drop_zero, hs]
  have hpow : (2 : Int) ^ (N - 1) ≤ 2 ^ N := pow_le_pow_right (by norm_num) (by omega)
  refine ⟨?_, ?_, ?_⟩
  · rw [heval]
    by_cases hin : -(2 ^ (N - 1) : Int) < v ∧ v < 2 ^ (N - 1)
    · rw [if_neg (not_not_intro hin), if_pos hin]
    · rw [if_pos hin, if_neg hin]
  · intro hb
    have hnot : ¬(-(2 ^ (N - 1) : Int) < v ∧ v < 2 ^ (N - 1)) := by
      rintro ⟨h1, h2⟩
      rcases hb with hb | hb <;> omega
    rw [heval, if_pos hnot]
  · intro hin
    have ht : 0 ≤ twos_complement v N ∧ twos_complement v N < 2 ^ N := by
      rw [twos_complement]
      split
      · constructor <;> omega
      · split
        · exact absurd hin.2 (by omega)
        · constructor <;> omega
    refine ⟨rjust N false (natBin (twos_complement v N).toNat), ?_, ?_, ?_⟩
    · rw [heval, if_neg (not_not_intro hin)]
    · have hcast : (((2 : Nat) ^ N : Nat) : Int) = (2 : Int) ^ N := by push_cast; ring
      have htn : (twos_complement v N).toNat < 2 ^ N := by omega
      have hlen : (natBin (twos_complement v N).toNat).length ≤ N :=
        natBin_length_le _ N hN htn
      rw [length_rjust]
      omega
    · rw [bitsToNat_rjust_false, natBin_sound, Int.toNat_of_nonneg ht.1]
      rw [twos_complement]
      split
      · conv_lhs => rw [show v + (2 : Int) ^ N = v + 2 ^ N * 1 by ring]
        rw [Int.add_mul_emod_self_left]
      · split
        · exact absurd hin.2 (by omega)
        · rfl

/-- The 4-bit immediate `5` is accepted and emitted; the boundary values are the
subject of the theorem's second conjunct. -/
theorem c6_witness :
    (encode_operand_one [] [] ('$' :: ['5']) (Tok.imm (some 4)) =
      if -(2 ^ (4 - 1) : Int) < 5 ∧ (5 : Int) < 2 ^ (4 - 1) then
        Except.ok ([] ++ rjust 4 false (natBin (twos_complement 5 4).toNat))
      else Except.error (TErr.asm AsmErr.immediateOutOfRange)) ∧
    (((5 : Int) = -(2 ^ (4 - 1)) ∨ (5 : Int) = 2 ^ (4 - 1)) →
      encode_operand_one [] [] ('$' :: ['5']) (Tok.imm (some 4)) =
        Except.error (TErr.asm AsmErr.immediateOutOfRange)) ∧
    (-(2 ^ (4 - 1) : Int) < 5 ∧ (5 : Int) < 2 ^ (4 - 1) →
      ∃ body, encode_operand_one [] [] ('$' :: ['5']) (Tok.imm (some 4)) =
          Except.ok ([] ++ body) ∧ body.length = 4 ∧
        (bitsToNat body : Int) % 2 ^ 4 = 5 % 2 ^ 4) :=
  c6_immediate_range [] [] ['5'] 5 4 (by decide) rfl
